import Mathlib

/-!
Verification development for the green-job-board scraping pipeline.

The definitions below are a shallow embedding of the two Python modules

  * foundit_scraper.py  (fetch layer, structured extractor, pagination
    controller, pipeline orchestrator), and
  * database_manager.py (persistence collaborator),

with the following conventions:

  * Python/JSON values are modelled by the inductive `Json`; Python `None`
    is `Json.null`, and Python truthiness is `Json.truthy`.
  * A call to `json.loads` on a script block is modelled by the block
    carrying its parse result (`none` standing for `json.JSONDecodeError`);
    the post-parse logic is embedded faithfully, including the
    `AttributeError` / `TypeError` exceptions Python raises when the parsed
    data has an unexpected shape (`PyErr`).
  * The Selenium render capability is an oracle (`World.render`) giving,
    per URL and attempt number, either an exception or a rendered page
    with its resolved URL; `driver.current_url` is the `curUrl` field of
    `Driver`, updated on every completed navigation.
  * Sleeps and log lines have no effect on the data flow; the sleeps are
    recorded as trace events (`TraceEv.backoff`, `TraceEv.settle`) so that
    the retry/backoff schedule is observable.
-/

namespace Scraper

/-- Python exceptions that the embedded code can raise: `AttributeError`
(calling `.get` / `.startswith` on a non-dict / non-str), `TypeError`
(iterating a non-iterable, joining non-strings, re-parsing a non-string),
and `UnicodeDecodeError` (un-escaping a fragment with a malformed escape
sequence — not a `json.JSONDecodeError`, so never caught). -/
inductive PyErr where
  | attributeError
  | typeError
  | unicodeDecodeError
  deriving DecidableEq

/-- JSON values as produced by Python's `json.loads` (also used for the
values stored in the scraper's job dictionaries; Python `None` is `null`). -/
inductive Json where
  | null
  | bool (b : Bool)
  | num (n : Int)
  | str (s : String)
  | arr (elems : List Json)
  | obj (fields : List (String × Json))

/-- Python truthiness of a value (`if x:`). -/
def Json.truthy : Json → Bool
  | .null => false
  | .bool b => b
  | .num n => n != 0
  | .str s => s != ""
  | .arr xs => !xs.isEmpty
  | .obj kvs => !kvs.isEmpty

/-- Python equality test of a value against a string literal
(`x == "lit"`: true exactly for the equal string). -/
def Json.isStrEq : Json → String → Bool
  | .str s, t => s == t
  | _, _ => false

/-- Lookup in a Python dict (dicts preserve insertion order, first binding
wins since keys are unique). -/
def dictGet (kvs : List (String × Json)) (k : String) : Option Json :=
  match kvs with
  | [] => none
  | (k', v) :: rest => if k' = k then some v else dictGet rest k

/-- Python `d.get(k, dflt)` on a dict. -/
def dictGetD (kvs : List (String × Json)) (k : String) (dflt : Json) : Json :=
  (dictGet kvs k).getD dflt

/-- Python `x.get(k)` on an arbitrary value: `AttributeError` unless `x`
is a dict; on a dict, the value or `None`. -/
def pyGet (j : Json) (k : String) : Except PyErr Json :=
  match j with
  | .obj kvs => .ok (dictGetD kvs k .null)
  | _ => .error .attributeError

/-- Python `x.get(k, dflt)` on an arbitrary value. -/
def pyGetD (j : Json) (k : String) (dflt : Json) : Except PyErr Json :=
  match j with
  | .obj kvs => .ok (dictGetD kvs k dflt)
  | _ => .error .attributeError

/-- Python iteration `for item in x`: lists yield their elements, strings
their one-character substrings, dicts their keys; other values raise
`TypeError`. -/
def pyIter (j : Json) : Except PyErr (List Json) :=
  match j with
  | .arr xs => .ok xs
  | .str s => .ok (s.data.map fun c => .str c.toString)
  | .obj kvs => .ok (kvs.map fun kv => .str kv.1)
  | _ => .error .typeError

/-- Python substring test `pat in s`, on character lists. -/
def listContains (pat : List Char) : List Char → Bool
  | [] => pat.isEmpty
  | c :: rest => pat.isPrefixOf (c :: rest) || listContains pat rest

/-- Python substring test `pat in s` on strings. -/
def strContains (s pat : String) : Bool :=
  listContains pat.data s.data

/-- Python `s.startswith(pre)`. -/
def strStartsWith (s pre : String) : Bool :=
  pre.data.isPrefixOf s.data

/-- Python `sep.join(strs)` for actual strings. -/
def joinStrs (sep : String) : List String → String
  | [] => ""
  | [s] => s
  | s :: rest => s ++ sep ++ joinStrs sep rest

/-- Python `sep.join(xs)` on a list of values: `TypeError` when an element
is not a string. -/
def joinPy (sep : String) (xs : List Json) : Except PyErr String :=
  match xs with
  | [] => .ok ""
  | .str s :: rest => (joinPy sep rest).map fun t =>
      match rest with
      | [] => s
      | _ => s ++ sep ++ t
  | _ => .error .typeError

/-! ### URL handling

`urllib.parse.urlparse` / `urljoin` modelled for URLs of the shape
`scheme://host/path...` with path-relative or root-relative references.
Query strings, fragments and dot-segment normalization are not modelled;
the embedded pipeline never constructs them. -/

/-- Split a character list at the first occurrence of `pat`, dropping the
occurrence itself. -/
def splitFirst (pat : List Char) : List Char → Option (List Char × List Char)
  | [] => none
  | c :: rest =>
    if pat.isPrefixOf (c :: rest) then some ([], (c :: rest).drop pat.length)
    else match splitFirst pat rest with
      | some (pre, post) => some (c :: pre, post)
      | none => none

/-- Decompose `scheme://host/path` into its three components, as
`urllib.parse.urlparse` does for such URLs (a URL without `://` parses
with empty scheme and netloc). -/
def schemeNetlocPath (u : String) : String × String × String :=
  match splitFirst "://".data u.data with
  | none => ("", "", u)
  | some (sch, rest) =>
    match splitFirst "/".data rest with
    | none => (String.mk sch, String.mk rest, "")
    | some (host, after) => (String.mk sch, String.mk host, String.mk ('/' :: after))

/-- The `f"x{scheme}://x{netloc}"` prefix used to build pagination URLs. -/
def schemeHost (u : String) : String :=
  let p := schemeNetlocPath u
  p.1 ++ "://" ++ p.2.1

/-- The character list of a path up to and including its last slash. -/
def dirname (path : List Char) : List Char :=
  (path.reverse.dropWhile fun c => c ≠ '/').reverse

/-- `urllib.parse.urljoin(base, rel)` for an absolute base and a relative
reference: root-relative references replace the whole path, other
references replace the last path segment. -/
def urljoin (base rel : String) : String :=
  let p := schemeNetlocPath base
  if strStartsWith rel "/" then p.1 ++ "://" ++ p.2.1 ++ rel
  else
    let d := dirname p.2.2.data
    let d2 := if d.isEmpty then "/".data else d
    p.1 ++ "://" ++ p.2.1 ++ String.mk d2 ++ rel

/-! ### Script blocks and pages -/

/-- The outcome of strategy B's fragment processing on one script tag —
the `_ITEMLIST_RE.search(text)` followed by
`raw.encode("utf-8").decode("unicode_escape")` followed by `json.loads`:

  * `noMatch`: the regex does not match;
  * `escErr`: the un-escaping raises `UnicodeDecodeError` on a malformed
    escape sequence — this is not a `json.JSONDecodeError`, so the
    handler at line 157 does not catch it and it propagates;
  * `decodeErr`: the un-escaped fragment fails `json.loads`
    (`json.JSONDecodeError`, caught: the loop continues);
  * `payload`: the decoded payload. -/
inductive InlineMatch where
  | noMatch
  | escErr
  | decodeErr
  | payload (p : Json)

/-- One `<script>` tag of a rendered page, as the two extraction strategies
of `extract_job_list_urls` see it.

  * `ldjson`: whether the tag has `type="application/ld+json"` (the
    `soup.find_all` filter of strategy A);
  * `text`: `script.string` (`none` when the tag has no single string
    child);
  * `parse`: the result of `json.loads(text)` (`none` models
    `json.JSONDecodeError`), meaningful when `text` is present;
  * `nextMatch`: the strategy-B fragment processing of `text`, an
    `InlineMatch`. -/
structure Script where
  ldjson : Bool
  text : Option String
  parse : Option Json
  nextMatch : InlineMatch

/-- A rendered page. `raw` is `driver.page_source` (used only for the
block-indicator substring checks); `scripts` is the soup's script-tag view
used by `extract_job_list_urls`; `ld` lists the `json.loads` results of the
`JOBPOST_RE` matches used by `parse_job_posting`; the `...Sel` fields are
the text extractions of the configured CSS selectors (`none` / `[]` when
the selector matches nothing); `getText` is the
`BeautifulSoup(markup).get_text(separator=' ', strip=True)` rendering used
to normalize descriptions. -/
structure Html where
  raw : String
  scripts : List Script
  ld : List (Option Json)
  titleSel : Option String
  companySel : Option String
  locationSels : List String
  descSel : Option String
  getText : String → String

/-! ### Listing-mode extraction: `extract_job_list_urls` -/

/-- The textual marker `'"@type":"ItemList"'` that gates strategy B. -/
def itemListMarker : String := "\"@type\":\"ItemList\""

/-- The list comprehension
`[item.get("url") for item in items if item.get("url")]`: collects the
truthy `url` values in order; `item.get` raises on non-dict items. -/
def collectUrls : List Json → Except PyErr (List Json)
  | [] => .ok []
  | item :: rest =>
    match pyGet item "url" with
    | .error e => .error e
    | .ok u =>
      match collectUrls rest with
      | .error e => .error e
      | .ok tail => .ok (if u.truthy then u :: tail else tail)

/-- The iteration base `data if isinstance(data, list) else [data]`. -/
def entriesOf (data : Json) : List Json :=
  match data with
  | .arr xs => xs
  | j => [j]

/-- Strategy A, inner loop: scan the entries of one decoded block for the
first dict of declared type `"ItemList"` whose `itemListElement` yields a
non-empty URL list. -/
def scanEntriesA : List Json → Except PyErr (Option (List Json))
  | [] => .ok none
  | e :: rest =>
    match e with
    | .obj kvs =>
      if (dictGetD kvs "@type" .null).isStrEq "ItemList" then
        match pyIter (dictGetD kvs "itemListElement" (.arr [])) with
        | .error err => .error err
        | .ok items =>
          match collectUrls items with
          | .error err => .error err
          | .ok urls => if urls.isEmpty then scanEntriesA rest else .ok (some urls)
      else scanEntriesA rest
    | _ => scanEntriesA rest

/-- Strategy A, outer loop over the `application/ld+json` script tags:
skip tags without text (`if not text: continue`) and tags whose JSON fails
to decode (`except json.JSONDecodeError: continue`). -/
def stratA : List Script → Except PyErr (Option (List Json))
  | [] => .ok none
  | s :: rest =>
    if s.ldjson then
      match s.text with
      | none => stratA rest
      | some t =>
        if t = "" then stratA rest
        else
          match s.parse with
          | none => stratA rest
          | some d =>
            match scanEntriesA (entriesOf d) with
            | .error e => .error e
            | .ok (some urls) => .ok (some urls)
            | .ok none => stratA rest
    else stratA rest

/-- Strategy B, loop over all script tags: skip tags without the
`itemListMarker` substring, tags where the payload regex does not match,
and tags whose un-escaped fragment fails `json.loads`; on the first
decoded payload return its URL list (empty or not). Only
`json.JSONDecodeError` is caught, so both the `UnicodeDecodeError` from
the un-escaping and the shape errors inside the `try` propagate. -/
def stratB : List Script → Except PyErr (List Json)
  | [] => .ok []
  | s :: rest =>
    if strContains (s.text.getD "") itemListMarker then
      match s.nextMatch with
      | .noMatch => stratB rest
      | .escErr => .error .unicodeDecodeError
      | .decodeErr => stratB rest
      | .payload payload =>
        match pyGetD payload "itemListElement" (.arr []) with
        | .error e => .error e
        | .ok items =>
          match pyIter items with
          | .error e => .error e
          | .ok xs =>
            match collectUrls xs with
            | .error e => .error e
            | .ok urls => .ok urls
    else stratB rest

/-- `extract_job_list_urls(html)`: strategy A first; strategy B only when
strategy A produced nothing; `[]` when both strategies produce nothing. -/
def extract_job_list_urls (scripts : List Script) : Except PyErr (List Json) :=
  match stratA scripts with
  | .error e => .error e
  | .ok (some urls) => .ok urls
  | .ok none => stratB scripts

/-- The contribution of one `itemListElement` entry to the URL list, when
the entry is a dict: its truthy `url` value. -/
def urlPick (it : Json) : Option Json :=
  match it with
  | .obj ikvs =>
    let u := dictGetD ikvs "url" .null
    if u.truthy then some u else none
  | _ => none

/-- The URL list an `itemListElement` value yields: for a JSON list, the
truthy `url` values of its dict entries, in order; nothing otherwise. -/
def specUrlsOfItems (items : Json) : List Json :=
  match items with
  | .arr l => l.filterMap urlPick
  | _ => []

/-- Specification-side reading of strategy A for one entry (written from
the words of the spec, to be compared with the code's scan): an entry
counts when it is a dict of declared type `"ItemList"` whose
`itemListElement` yields a non-empty URL list. -/
def specEntryUrls (e : Json) : Option (List Json) :=
  match e with
  | .obj kvs =>
    if (dictGetD kvs "@type" .null).isStrEq "ItemList" then
      let urls := specUrlsOfItems (dictGetD kvs "itemListElement" (.arr []))
      if urls.isEmpty then none else some urls
    else none
  | _ => none

/-- Specification-side contribution of one script block to strategy A: a
parsed linked-data block, its first entry (object or array of objects)
yielding a non-empty URL list. -/
def specScriptUrls (s : Script) : Option (List Json) :=
  if s.ldjson then
    match s.text with
    | none => none
    | some t =>
      if t = "" then none
      else
        match s.parse with
        | none => none
        | some d => (entriesOf d).findSome? specEntryUrls
  else none

/-- Specification-side reading of strategy A over a page (written from the
words of the spec): the first linked-data block that yields a non-empty
URL list, that list in order. -/
def specFirstItemListUrls : List Script → Option (List Json)
  | [] => none
  | s :: rest =>
    match specScriptUrls s with
    | some urls => some urls
    | none => specFirstItemListUrls rest

/-- The strategy-A-relevant projection of a script tag (everything except
the strategy-B payload data). -/
def projA (s : Script) : Bool × Option String × Option Json :=
  (s.ldjson, s.text, s.parse)

/-! ### Detail-mode extraction: `parse_job_posting` -/

/-- The record built by `parse_job_posting`; fields hold Python values
(`Json.null` for `None`), `link` is the job URL passed in. -/
structure JobRecord where
  title : Json
  company : Json
  location : Json
  description : Json
  link : String

/-- Find the first `JOBPOST_RE` block that decodes to a dict of declared
type `"JobPosting"` (decode failures are skipped; the loop breaks at the
first match, later blocks are never merged). -/
def firstJobPostingKvs : List (Option Json) → Option (List (String × Json))
  | [] => none
  | none :: rest => firstJobPostingKvs rest
  | some d :: rest =>
    match d with
    | .obj kvs =>
      if (dictGetD kvs "@type" .null).isStrEq "JobPosting" then some kvs
      else firstJobPostingKvs rest
    | _ => firstJobPostingKvs rest

/-- The `jobLocation` list loop: keep, in order, the truthy
`addressLocality` of each dict entry whose `address` is a dict. -/
def collectLocs : List Json → List Json
  | [] => []
  | e :: rest =>
    match e with
    | .obj ekvs =>
      match dictGetD ekvs "address" (.obj []) with
      | .obj akvs =>
        let l := dictGetD akvs "addressLocality" .null
        if l.truthy then l :: collectLocs rest else collectLocs rest
      | _ => collectLocs rest
    | _ => collectLocs rest

/-- Specification-side locality of one `jobLocation` entry (written from
the words of the spec): the locality of the entry's address sub-object,
nothing when the entry lacks one. -/
def specLocality (e : Json) : Option Json :=
  match e with
  | .obj ekvs =>
    match dictGetD ekvs "address" (.obj []) with
    | .obj akvs =>
      let l := dictGetD akvs "addressLocality" .null
      if l.truthy then some l else none
    | _ => none
  | _ => none

/-- Specification-side reading of the locality collection (written from
the words of the spec): the localities of the entries' address
sub-objects, in order, skipping entries that lack one. -/
def specLocalities (entries : List Json) : List Json :=
  entries.filterMap specLocality

/-- The `jobLocation` branch of the `JobPosting` block: a list collects
and joins the localities (`None` when none found), a dict takes its
address locality, anything else leaves the field `None`. -/
def locationFromLd (kvs : List (String × Json)) : Except PyErr Json :=
  match dictGetD kvs "jobLocation" .null with
  | .arr entries =>
    let locs := collectLocs entries
    if locs.isEmpty then .ok .null
    else
      match joinPy ", " locs with
      | .error e => .error e
      | .ok s => .ok (.str s)
  | .obj lkvs =>
    match dictGetD lkvs "address" (.obj []) with
    | .obj akvs => .ok (dictGetD akvs "addressLocality" .null)
    | _ => .ok .null
  | _ => .ok .null

/-- Populate a record from the first `JobPosting` dict (lines 184-206 of
the scraper): `title`, `company` from the nested hiring-organization name
(a `.get` chain, raising on a non-dict organization), `location` via
`locationFromLd`, `description`. -/
def applyJobPosting (kvs : List (String × Json)) (j : JobRecord) :
    Except PyErr JobRecord :=
  match pyGet (dictGetD kvs "hiringOrganization" (.obj [])) "name" with
  | .error e => .error e
  | .ok company =>
    match locationFromLd kvs with
    | .error e => .error e
    | .ok location =>
      .ok { j with title := dictGetD kvs "title" .null, company, location,
                   description := dictGetD kvs "description" .null }

/-- The per-field CSS-selector fallbacks (lines 208-222): each runs only
when the field is still falsy; title and company overwrite with the
selector text or `None`, location joins the matched texts only when some
matched, description keeps the serialized markup only when one matched. -/
def applyFallbacks (page : Html) (j : JobRecord) : JobRecord :=
  let title := if j.title.truthy then j.title else
    match page.titleSel with
    | some s => Json.str s
    | none => Json.null
  let company := if j.company.truthy then j.company else
    match page.companySel with
    | some s => Json.str s
    | none => Json.null
  let location := if j.location.truthy then j.location else
    match page.locationSels with
    | [] => j.location
    | ls => Json.str (joinStrs ", " ls)
  let description := if j.description.truthy then j.description else
    match page.descSel with
    | some s => Json.str s
    | none => j.description
  { j with title, company, location, description }

/-- The description normalization (lines 224-226): a truthy description is
re-parsed as markup and replaced by its plain-text rendering; re-parsing a
truthy non-string raises `TypeError`. -/
def normalizeDescription (page : Html) (j2 : JobRecord) : Except PyErr JobRecord :=
  if j2.description.truthy then
    match j2.description with
    | .str s => .ok { j2 with description := .str (page.getText s) }
    | _ => .error .typeError
  else
    .ok j2

/-- `parse_job_posting(html, job_url)`: empty record, first `JobPosting`
block, per-field selector fallbacks, then the description
normalization. -/
def parse_job_posting (page : Html) (jobUrl : String) : Except PyErr JobRecord :=
  let j0 : JobRecord :=
    { title := .null, company := .null, location := .null, description := .null,
      link := jobUrl }
  match
    (match firstJobPostingKvs page.ld with
     | none => Except.ok j0
     | some kvs => applyJobPosting kvs j0) with
  | .error e => .error e
  | .ok j1 => normalizeDescription page (applyFallbacks page j1)

/-! ### Fetch layer: `fetch_with_selenium` -/

/-- The outcome the render capability gives one `driver.get` attempt:
an exception (timeout, WebDriver error, or other) or a rendered page
together with the driver's resolved URL after navigation. -/
inductive AttemptOut where
  | exn
  | loaded (page : Html) (resolved : String)

/-- The external world: what rendering a URL produces on its n-th attempt. -/
structure World where
  render : String → Nat → AttemptOut

/-- The Selenium driver state the pipeline observes: the user-agent fixed
at construction and `driver.current_url`. -/
structure Driver where
  ua : String
  curUrl : String

/-- Observable events of a run: a render attempt (with the identity
presented), the exponential backoff sleep, the post-success settle sleep,
a relative-URL resolution (base and reference passed to `urljoin`), and
the start of an item / listing-page fetch together with the accumulator
size at that moment. -/
inductive TraceEv where
  | fetchAttempt (url : String) (attempt : Nat) (ua : String)
  | backoff (d : Nat)
  | settle
  | resolve (base rel : String)
  | itemFetch (url : String) (accSize : Nat)
  | pageFetch (page : Nat) (accSize : Nat)
  deriving DecidableEq

/-- Block-indicator check of `fetch_with_selenium`:
`"403 Forbidden" in page_source or "Access Denied" in page_source`. -/
def blockedHtml (pg : Html) : Bool :=
  strContains pg.raw "403 Forbidden" || strContains pg.raw "Access Denied"

/-- The retry loop of `fetch_with_selenium` over the listed attempt
numbers. A raised exception falls through to the `time.sleep(2 ** attempt)`
backoff; a detected block indicator executes `continue`, which skips both
sleeps; a success applies the settle sleep and returns the page. Every
completed navigation updates `driver.current_url`. -/
def fetchGo (world : World) (url : String) (d : Driver) :
    List Nat → Option Html × Driver × List TraceEv
  | [] => (none, d, [])
  | k :: ks =>
    match world.render url k with
    | .exn =>
      let r := fetchGo world url d ks
      (r.1, r.2.1, .fetchAttempt url k d.ua :: .backoff (2 ^ k) :: r.2.2)
    | .loaded pg resolved =>
      let d2 : Driver := { d with curUrl := resolved }
      if blockedHtml pg then
        let r := fetchGo world url d2 ks
        (r.1, r.2.1, .fetchAttempt url k d.ua :: r.2.2)
      else
        (some pg, d2, [.fetchAttempt url k d.ua, .settle])

/-- `fetch_with_selenium(driver, url)`: attempts `1, ..., maxRetries`,
then `None`. -/
def fetch_with_selenium (world : World) (d : Driver) (url : String)
    (maxRetries : Nat) : Option Html × Driver × List TraceEv :=
  fetchGo world url d (List.range' 1 maxRetries)

/-- Attempt numbers recorded in a trace. -/
def attemptsOf (tr : List TraceEv) : List Nat :=
  tr.filterMap fun e =>
    match e with
    | .fetchAttempt _ k _ => some k
    | _ => none

/-- Backoff sleep durations recorded in a trace. -/
def backoffsOf (tr : List TraceEv) : List Nat :=
  tr.filterMap fun e =>
    match e with
    | .backoff d => some d
    | _ => none

/-- Identities presented to the render capability, in order. -/
def identsOf (tr : List TraceEv) : List String :=
  tr.filterMap fun e =>
    match e with
    | .fetchAttempt _ _ ua => some ua
    | _ => none

/-- The `(base, rel)` pairs passed to `urljoin` during item processing. -/
def resolvesOf (tr : List TraceEv) : List (String × String) :=
  tr.filterMap fun e =>
    match e with
    | .resolve b r => some (b, r)
    | _ => none

/-- Whether an attempt outcome is an exception. -/
def AttemptOut.isExn : AttemptOut → Bool
  | .exn => true
  | .loaded _ _ => false

/-- Specification-side identity sequence (modelled from the spec: the
Identity Pool supplies, per render invocation, one entry chosen uniformly
at random with replacement — a fresh draw per call): attempt `k` presents
the pool entry selected by the k-th draw. -/
def specAttemptIdentities (pool : List String) (draws : Nat → Nat)
    (n : Nat) : List String :=
  (List.range n).map fun k => pool.getD (draws k % pool.length) ""

/-! ### Pipeline orchestrator: `main` -/

/-- The run configuration read from `config.py` (`RunLimits`, the entry
URL, identity pool and pagination template). -/
structure Config where
  targetUrl : String
  headers : List String
  basePath : String
  startPage : Nat
  maxJobs : Option Nat
  maxPages : Option Nat
  maxRetries : Nat

/-- `MAX_JOBS is not None and len(all_jobs) >= MAX_JOBS`. -/
def limitHit (cfg : Config) (n : Nat) : Bool :=
  match cfg.maxJobs with
  | some m => decide (m ≤ n)
  | none => false

/-- State and observations a pipeline phase hands back: driver, accepted
records so far, the events of the phase, and the uncaught exception if one
was raised. -/
structure StRes where
  d : Driver
  jobs : List JobRecord
  tr : List TraceEv
  err : Option PyErr

/-- The URL-resolution step of the item loop (lines 281 and 334): an
absolute URL is kept; a relative URL is resolved with `urljoin` against
`driver.current_url` — the driver's current URL at this iteration, as the
code reads it afresh for every item. Returns the full URL and the
resolution event. -/
def resolveItem (d : Driver) (s : String) : String × List TraceEv :=
  if strStartsWith s "http" then (s, [])
  else (urljoin d.curUrl s, [.resolve d.curUrl s])

/-- The item loop shared by the entry page and every listing page
(lines 280-295 and 333-349): for each URL in order, resolve it
(`resolveItem`), fetch it, skip it on fetch failure, parse it, append the
record when the title is truthy, and stop when the record limit is
reached (checked after the append). A non-string URL raises
`AttributeError` at `url.startswith`. -/
def processItems (cfg : Config) (world : World) (d : Driver)
    (jobs : List JobRecord) : List Json → StRes
  | [] => ⟨d, jobs, [], none⟩
  | u :: rest =>
    match u with
    | .str s =>
      let fullUrl := (resolveItem d s).1
      let tr0 := (resolveItem d s).2 ++ [TraceEv.itemFetch fullUrl jobs.length]
      let f := fetch_with_selenium world d fullUrl cfg.maxRetries
      match f.1 with
      | none =>
        let r := processItems cfg world f.2.1 jobs rest
        { r with tr := tr0 ++ f.2.2 ++ r.tr }
      | some pg =>
        match parse_job_posting pg fullUrl with
        | .error e => ⟨f.2.1, jobs, tr0 ++ f.2.2, some e⟩
        | .ok job =>
          if job.title.truthy then
            let jobs2 := jobs ++ [job]
            if limitHit cfg jobs2.length then ⟨f.2.1, jobs2, tr0 ++ f.2.2, none⟩
            else
              let r := processItems cfg world f.2.1 jobs2 rest
              { r with tr := tr0 ++ f.2.2 ++ r.tr }
          else
            let r := processItems cfg world f.2.1 jobs rest
            { r with tr := tr0 ++ f.2.2 ++ r.tr }
    | _ => ⟨d, jobs, [], some .attributeError⟩

/-- The listing-page URL `f"x{scheme}://x{netloc}x{basePath}-x{page_num}"`
of phase 2. -/
def pageUrl (cfg : Config) (p : Nat) : String :=
  schemeHost cfg.targetUrl ++ cfg.basePath ++ "-" ++ toString p

/-- The phase-2 pagination loop over the listed page numbers
(lines 314-353): fetch the page (stop on terminal fetch failure), extract
its item URLs (stop when none), process the items, and stop when the
record limit is reached; each page gets exactly one fetch call. -/
def pageLoop (cfg : Config) (world : World) (d : Driver)
    (jobs : List JobRecord) : List Nat → StRes
  | [] => ⟨d, jobs, [], none⟩
  | p :: ps =>
    let tr0 : List TraceEv := [TraceEv.pageFetch p jobs.length]
    let f := fetch_with_selenium world d (pageUrl cfg p) cfg.maxRetries
    match f.1 with
    | none => ⟨f.2.1, jobs, tr0 ++ f.2.2, none⟩
    | some pg =>
      match extract_job_list_urls pg.scripts with
      | .error e => ⟨f.2.1, jobs, tr0 ++ f.2.2, some e⟩
      | .ok [] => ⟨f.2.1, jobs, tr0 ++ f.2.2, none⟩
      | .ok urls =>
        let r := processItems cfg world f.2.1 jobs urls
        match r.err with
        | some _ => { r with tr := tr0 ++ f.2.2 ++ r.tr }
        | none =>
          if limitHit cfg r.jobs.length then { r with tr := tr0 ++ f.2.2 ++ r.tr }
          else
            let r2 := pageLoop cfg world r.d r.jobs ps
            { r2 with tr := tr0 ++ f.2.2 ++ r.tr ++ r2.tr }

/-- `range(start+1, end_page_range)` with
`end_page_range = MAX_PAGES + PAGINATION_START_PAGE` when `MAX_PAGES` is
set and `1000000` otherwise. -/
def endRangeOf (cfg : Config) : Nat :=
  match cfg.maxPages with
  | some mp => mp + cfg.startPage
  | none => 1000000

/-- The phase-2 page numbers. -/
def pageNums (cfg : Config) : List Nat :=
  List.range' (cfg.startPage + 1) (endRangeOf cfg - (cfg.startPage + 1))

/-- The outcome of a whole run: the final accumulator, the event trace,
and the uncaught exception, if any. -/
structure RunResult where
  jobs : List JobRecord
  trace : List TraceEv
  err : Option PyErr

/-- The remaining phases of `main()` after the entry page was processed:
an uncaught exception propagates; otherwise a reached record limit stops
the run before any pagination; otherwise phase-2 pagination runs. -/
def afterEntry (cfg : Config) (world : World) (r1 : StRes) : RunResult :=
  match r1.err with
  | some e => ⟨r1.jobs, r1.tr, some e⟩
  | none =>
    if limitHit cfg r1.jobs.length then ⟨r1.jobs, r1.tr, none⟩
    else
      let r2 := pageLoop cfg world r1.d r1.jobs (pageNums cfg)
      ⟨r2.jobs, r1.tr ++ r2.tr, r2.err⟩

/-- `main()`: draw the user-agent once at driver construction
(`random.choice(HEADERS)`, the draw indexed 0 of the random stream), fetch
the entry page (give up when it terminally fails), process its items, then
hand over to `afterEntry` (record-limit stop or pagination). Logging,
robots.txt and the database hand-off do not affect the collected records
and are not modelled here (`insert_jobs` is modelled separately). -/
def runPipeline (cfg : Config) (world : World) (rands : Nat → Nat) : RunResult :=
  let ua := cfg.headers.getD (rands 0 % cfg.headers.length) ""
  let d0 : Driver := ⟨ua, ""⟩
  let f1 := fetch_with_selenium world d0 cfg.targetUrl cfg.maxRetries
  match f1.1 with
  | none => ⟨[], f1.2.2, none⟩
  | some pg1 =>
    match extract_job_list_urls pg1.scripts with
    | .error e => ⟨[], f1.2.2, some e⟩
    | .ok urls1 =>
      let r1 := if urls1.isEmpty then (⟨f1.2.1, [], [], none⟩ : StRes)
                else processItems cfg world f1.2.1 [] urls1
      afterEntry cfg world { r1 with tr := f1.2.2 ++ r1.tr }

/-! ### Persistence collaborator: `SupabaseManager.insert_jobs` -/

/-- The database as `insert_jobs` observes it, per position in the batch:
whether the client was initialized, whether
`_insert_company_if_not_exists` reports success (it catches its own
exceptions and returns a boolean), and the jobs-table insert outcome
(`none` models a raised exception — caught by the per-record handler —
and `some b` whether `response.data` was truthy). -/
structure Db where
  connected : Bool
  upsertOk : Nat → Bool
  insertData : Nat → Option Bool

/-- The validation `not title or not description or not business_name`. -/
def jobValid (j : JobRecord) : Bool :=
  j.title.truthy && j.description.truthy && j.company.truthy

/-- What one record contributes to the inserted count: 0 when validation
skips it, when the company upsert fails, when the insert raises (the
per-record handler catches and continues), or when the insert response
carries no data; 1 on a successful insert. -/
def insertContrib (db : Db) (i : Nat) (j : JobRecord) : Nat :=
  if jobValid j then
    if db.upsertOk i then
      match db.insertData i with
      | some true => 1
      | _ => 0
    else 0
  else 0

/-- The per-record loop of `insert_jobs`: every record contributes
independently and every failure path continues with the next record. -/
def insertLoop (db : Db) (i : Nat) : List JobRecord → Nat
  | [] => 0
  | j :: rest => insertContrib db i j + insertLoop db (i + 1) rest

/-- `insert_jobs(jobs_data)`: 0 when the client is uninitialized,
otherwise the number of successfully inserted records. -/
def insert_jobs (db : Db) (jobs : List JobRecord) : Nat :=
  if db.connected then insertLoop db 0 jobs else 0

/-! ### Trace predicates used by the invariants -/

/-- Events that the fetch layer itself can emit. -/
def fetchEvB : TraceEv → Bool
  | .fetchAttempt _ _ _ => true
  | .backoff _ => true
  | .settle => true
  | _ => false

/-- Every render attempt in the event presents identity `u`. -/
def uaOk (u : String) : TraceEv → Bool
  | .fetchAttempt _ _ ua => ua == u
  | _ => true

/-- Every item / listing-page fetch in the event was initiated while the
accumulator was strictly below `m`. -/
def evWithin (m : Nat) : TraceEv → Bool
  | .itemFetch _ n => decide (n < m)
  | .pageFetch _ n => decide (n < m)
  | _ => true

/-- The acceptance invariant on a stored record: a truthy title. -/
def titleOk (j : JobRecord) : Bool :=
  j.title.truthy

/-- Shape condition under which the URL comprehension cannot raise: the
value is a JSON list whose entries are all objects. -/
def goodItems : Json → Bool
  | .arr xs => xs.all fun it =>
      match it with
      | .obj _ => true
      | _ => false
  | _ => false

/-- Shape condition on one decoded entry: if it declares an `ItemList`,
its `itemListElement` is a list of objects. -/
def entryWF (e : Json) : Bool :=
  match e with
  | .obj kvs =>
    if (dictGetD kvs "@type" .null).isStrEq "ItemList" then
      goodItems (dictGetD kvs "itemListElement" (.arr []))
    else true
  | _ => true

/-- Shape condition on a decoded strategy-B payload: a dict whose
`itemListElement` is a list of objects. -/
def payloadWF (p : Json) : Bool :=
  match p with
  | .obj kvs => goodItems (dictGetD kvs "itemListElement" (.arr []))
  | _ => false

/-- Shape condition under which scanning a script tag cannot raise: every
decoded `ItemList` entry, and every decoded strategy-B payload, carries an
`itemListElement` that is a list of objects, and no inline fragment fails
the `unicode_escape` decode (that failure raises uncaught). -/
def scriptWF (s : Script) : Bool :=
  (match s.parse with
   | some d => (entriesOf d).all entryWF
   | none => true)
  &&
  (match s.nextMatch with
   | .payload p => payloadWF p
   | .escErr => false
   | _ => true)

/-! ### Concrete pages, worlds and configurations

Closed instances used to evaluate the embedded pipeline on explicit
inputs. The `text` fields spell the raw JSON whose `json.loads` result
the `parse` field records. -/

/-- A page whose source carries a block indicator. -/
def blockedPage : Html :=
  { raw := "<html>403 Forbidden</html>", scripts := [], ld := [],
    titleSel := none, companySel := none, locationSels := [], descSel := none,
    getText := id }

/-- A world in which every render of every URL yields the blocked page. -/
def blockedWorld : World :=
  ⟨fun _ _ => .loaded blockedPage "https://h/blocked"⟩

/-- A detail page whose structured data declares only a title. -/
def titledJobPage : Html :=
  { raw := "<html>job</html>", scripts := [],
    ld := [some (.obj [("@type", .str "JobPosting"), ("title", .str "T")])],
    titleSel := none, companySel := none, locationSels := [], descSel := none,
    getText := id }

/-- A detail page with no structured data and no selector matches: its
record has no title and is discarded. -/
def untitledJobPage : Html :=
  { raw := "<html>job</html>", scripts := [], ld := [],
    titleSel := none, companySel := none, locationSels := [], descSel := none,
    getText := id }

/-- A listing script whose ItemList holds one absolute item URL. -/
def oneItemScript : Script :=
  { ldjson := true,
    text := some "\x7b\"@type\": \"ItemList\", \"itemListElement\": [\x7b\"url\": \"https://h/a/1\"\x7d]\x7d",
    parse := some (.obj [("@type", .str "ItemList"),
      ("itemListElement", .arr [.obj [("url", .str "https://h/a/1")]])]),
    nextMatch := .noMatch }

/-- A listing page carrying `oneItemScript`. -/
def oneItemPage : Html :=
  { raw := "<html>list</html>", scripts := [oneItemScript], ld := [],
    titleSel := none, companySel := none, locationSels := [], descSel := none,
    getText := id }

/-- A listing script whose ItemList holds an absolute item URL followed by
a relative one. -/
def twoItemScript : Script :=
  { ldjson := true,
    text := some "\x7b\"@type\": \"ItemList\", \"itemListElement\": [\x7b\"url\": \"https://h/a/1\"\x7d, \x7b\"url\": \"x2\"\x7d]\x7d",
    parse := some (.obj [("@type", .str "ItemList"),
      ("itemListElement", .arr [.obj [("url", .str "https://h/a/1")],
        .obj [("url", .str "x2")]])]),
    nextMatch := .noMatch }

/-- A listing page carrying `twoItemScript`. -/
def twoItemPage : Html :=
  { raw := "<html>list</html>", scripts := [twoItemScript], ld := [],
    titleSel := none, companySel := none, locationSels := [], descSel := none,
    getText := id }

/-- A configuration with `MAX_JOBS = 0` and a single-page run. -/
def cfgZeroLimit : Config :=
  { targetUrl := "https://h/jobs/list", headers := ["a"], basePath := "/jobs/list",
    startPage := 1, maxJobs := some 0, maxPages := some 0, maxRetries := 1 }

/-- The `cfgZeroLimit` configuration with `MAX_JOBS = 1`. -/
def cfgOneLimit : Config :=
  { cfgZeroLimit with maxJobs := some 1 }

/-- A world serving one listing page with one titled item. -/
def oneJobWorld : World :=
  ⟨fun url _ =>
    if url = "https://h/jobs/list" then .loaded oneItemPage "https://h/jobs/list"
    else if url = "https://h/a/1" then .loaded titledJobPage "https://h/a/1"
    else .exn⟩

/-- A configuration with no record limit and a single-page run. -/
def cfgNoLimit : Config :=
  { targetUrl := "https://h/jobs/list", headers := ["a"], basePath := "/jobs/list",
    startPage := 1, maxJobs := none, maxPages := some 0, maxRetries := 1 }

/-- A world serving the two-item listing page; its first item resolves to
a page with no usable title, so that no record is accepted. -/
def driftWorld : World :=
  ⟨fun url _ =>
    if url = "https://h/jobs/list" then .loaded twoItemPage "https://h/jobs/list"
    else if url = "https://h/a/1" then .loaded untitledJobPage "https://h/a/1"
    else .exn⟩

/-- A world serving the first item as a titled job page (used to witness
the resolution-base statement on the accepting path). -/
def driftWorldTitled : World :=
  ⟨fun url _ =>
    if url = "https://h/a/1" then .loaded titledJobPage "https://h/a/1"
    else .exn⟩

/-- A two-identity configuration whose entry fetch needs two attempts. -/
def cfgTwoHeaders : Config :=
  { targetUrl := "https://h/jobs/list", headers := ["a", "b"], basePath := "/jobs/list",
    startPage := 1, maxJobs := none, maxPages := some 0, maxRetries := 2 }

/-- A listing page with no scripts at all (no item URLs). -/
def emptyListPage : Html :=
  { raw := "<html>list</html>", scripts := [], ld := [],
    titleSel := none, companySel := none, locationSels := [], descSel := none,
    getText := id }

/-- A world whose first render attempt raises and whose second succeeds
with an empty listing page: every run makes exactly two render calls. -/
def twoAttemptWorld : World :=
  ⟨fun _ k => if k = 1 then .exn else .loaded emptyListPage "https://h/jobs/list"⟩

/-- The ItemList script of the strategy-A precedence example: URLs
`A`, `B`, `C`. -/
def abcScript : Script :=
  { ldjson := true,
    text := some "\x7b\"@type\": \"ItemList\", \"itemListElement\": [\x7b\"url\": \"A\"\x7d, \x7b\"url\": \"B\"\x7d, \x7b\"url\": \"C\"\x7d]\x7d",
    parse := some (.obj [("@type", .str "ItemList"),
      ("itemListElement", .arr [.obj [("url", .str "A")], .obj [("url", .str "B")],
        .obj [("url", .str "C")]])]),
    nextMatch := .noMatch }

/-- A decoy inline-payload script: a plain script tag whose text carries
the ItemList marker and whose isolated payload decodes to URLs `X`, `Y`. -/
def decoyScript : Script :=
  { ldjson := false,
    text := some "self.push([1,\"\x7b\"@type\":\"ItemList\",\"itemListElement\":...\x7d\"])",
    parse := none,
    nextMatch := .payload (.obj [("@type", .str "ItemList"),
      ("itemListElement", .arr [.obj [("url", .str "X")], .obj [("url", .str "Y")]])]) }

/-- The decoy script with a different inline payload (URLs `X2` only);
only strategy-B data differs from `decoyScript`. -/
def decoyScriptAlt : Script :=
  { decoyScript with
    nextMatch := .payload (.obj [("@type", .str "ItemList"),
      ("itemListElement", .arr [.obj [("url", .str "X2")]])]) }

/-- A script whose JSON decodes but whose `itemListElement` holds a
non-object entry: scanning it raises `AttributeError` at
`item.get("url")`. -/
def rawStringItemScript : Script :=
  { ldjson := true,
    text := some "\x7b\"@type\": \"ItemList\", \"itemListElement\": [\"x\"]\x7d",
    parse := some (.obj [("@type", .str "ItemList"),
      ("itemListElement", .arr [.str "x"])]),
    nextMatch := .noMatch }

/-- A script whose text is not valid JSON: both strategies skip it. -/
def undecodableScript : Script :=
  { ldjson := true,
    text := some "\x7b\"@type\":\"ItemList\", oops",
    parse := none,
    nextMatch := .decodeErr }

/-- A plain script tag whose text carries the ItemList marker and whose
isolated payload fragment holds the truncated escape sequence `\u12 `:
`raw.encode("utf-8").decode("unicode_escape")` raises
`UnicodeDecodeError`, which the `except json.JSONDecodeError` handler
does not catch. -/
def badEscapeScript : Script :=
  { ldjson := false,
    text := some "self.push([1,\"\x7b\"@type\":\"ItemList\",\"itemListElement\":[\\u12 ]\x7d\"])",
    parse := none,
    nextMatch := .escErr }

/-- The `jobLocation` entries of the locality example. -/
def austinEntries : List Json :=
  [.obj [("address", .obj [("addressLocality", .str "Austin")])],
   .obj [("address", .obj [("addressLocality", .str "Denver")])]]

/-- The decoded `JobPosting` dict of the locality example: `Tree Planter`
at `EcoRegen` with job locations `Austin` and `Denver`. -/
def austinKvs : List (String × Json) :=
  [("@type", .str "JobPosting"), ("title", .str "Tree Planter"),
   ("hiringOrganization", .obj [("name", .str "EcoRegen")]),
   ("jobLocation", .arr austinEntries),
   ("description", .str "Plant trees.")]

/-- The detail page of the locality example. -/
def austinDenverPage : Html :=
  { raw := "<html>job</html>",
    scripts := [],
    ld := [some (.obj austinKvs)],
    titleSel := none, companySel := none, locationSels := [], descSel := none,
    getText := id }

/-- A record with an empty title (invalid for persistence). -/
def untitledRecord : JobRecord :=
  { title := .str "", company := .str "Co", location := .null,
    description := .str "d", link := "https://h/a/0" }

/-- A fully populated record (valid for persistence). -/
def titledRecord : JobRecord :=
  { title := .str "T", company := .str "Co", location := .null,
    description := .str "d", link := "https://h/a/1" }

/-- A database that accepts everything. -/
def okDb : Db :=
  { connected := true, upsertOk := fun _ => true, insertData := fun _ => some true }

/-! ## Fetch-layer lemmas -/

theorem fetchGo_ua (world : World) (url : String) :
    ∀ (ks : List Nat) (d : Driver), (fetchGo world url d ks).2.1.ua = d.ua := by
  intro ks
  induction ks with
  | nil => intro d; rfl
  | cons k ks ih =>
    intro d
    simp only [fetchGo]
    cases h : world.render url k with
    | exn => simpa using ih d
    | loaded pg resolved =>
      cases hb : blockedHtml pg with
      | true => simpa [hb] using ih { d with curUrl := resolved }
      | false => simp [hb]

theorem fetchGo_events (world : World) (url : String) :
    ∀ (ks : List Nat) (d : Driver), ((fetchGo world url d ks).2.2).all fetchEvB = true := by
  intro ks
  induction ks with
  | nil => intro d; rfl
  | cons k ks ih =>
    intro d
    simp only [fetchGo]
    cases h : world.render url k with
    | exn => simpa [fetchEvB] using ih d
    | loaded pg resolved =>
      cases hb : blockedHtml pg with
      | true => simpa [hb, fetchEvB] using ih { d with curUrl := resolved }
      | false => simp [hb, fetchEvB]

theorem fetchGo_idents (world : World) (url : String) :
    ∀ (ks : List Nat) (d : Driver), ((fetchGo world url d ks).2.2).all (uaOk d.ua) = true := by
  intro ks
  induction ks with
  | nil => intro d; rfl
  | cons k ks ih =>
    intro d
    simp only [fetchGo]
    cases h : world.render url k with
    | exn => simpa [uaOk] using ih d
    | loaded pg resolved =>
      cases hb : blockedHtml pg with
      | true => simpa [hb, uaOk] using ih { d with curUrl := resolved }
      | false => simp [hb, uaOk]

theorem fetchEvB_evWithin (m : Nat) (e : TraceEv) (h : fetchEvB e = true) :
    evWithin m e = true := by
  cases e <;> simp_all [fetchEvB, evWithin]

theorem all_fetchEvB_evWithin (m : Nat) (tr : List TraceEv)
    (h : tr.all fetchEvB = true) : tr.all (evWithin m) = true := by
  induction tr with
  | nil => rfl
  | cons e tr ih =>
    simp only [List.all_cons, Bool.and_eq_true] at h ⊢
    exact ⟨fetchEvB_evWithin m e h.1, ih h.2⟩

theorem all_fetchEvB_resolves (tr : List TraceEv)
    (h : tr.all fetchEvB = true) : resolvesOf tr = [] := by
  induction tr with
  | nil => rfl
  | cons e tr ih =>
    simp only [List.all_cons, Bool.and_eq_true] at h
    cases e <;> simp_all [fetchEvB, resolvesOf, List.filterMap_cons]

theorem fetchGo_blocked (world : World) (url : String) :
    ∀ (ks : List Nat) (d : Driver),
    (∀ k ∈ ks, ∃ pg r, world.render url k = .loaded pg r ∧ blockedHtml pg = true) →
    (fetchGo world url d ks).1 = none ∧
    attemptsOf (fetchGo world url d ks).2.2 = ks ∧
    backoffsOf (fetchGo world url d ks).2.2 = [] := by
  intro ks
  induction ks with
  | nil => intro d _; exact ⟨rfl, rfl, rfl⟩
  | cons k ks ih =>
    intro d h
    obtain ⟨pg, r, hk, hb⟩ := h k (List.mem_cons_self k ks)
    have hrest := ih { d with curUrl := r } fun k' hk' => h k' (List.mem_cons_of_mem _ hk')
    simp only [fetchGo, hk, hb, if_pos]
    refine ⟨hrest.1, ?_, ?_⟩
    · simpa [attemptsOf, List.filterMap_cons] using hrest.2.1
    · simpa [backoffsOf, List.filterMap_cons] using hrest.2.2

theorem fetchGo_backoffs (world : World) (url : String) :
    ∀ (ks : List Nat) (d : Driver),
    backoffsOf (fetchGo world url d ks).2.2 =
      ((attemptsOf (fetchGo world url d ks).2.2).filter
        fun k => (world.render url k).isExn).map fun k => 2 ^ k := by
  intro ks
  induction ks with
  | nil => intro d; rfl
  | cons k ks ih =>
    intro d
    simp only [fetchGo]
    cases h : world.render url k with
    | exn =>
      simpa [attemptsOf, backoffsOf, List.filterMap_cons, h, AttemptOut.isExn]
        using ih d
    | loaded pg resolved =>
      cases hb : blockedHtml pg with
      | true =>
        simpa [hb, attemptsOf, backoffsOf, List.filterMap_cons, h, AttemptOut.isExn]
          using ih { d with curUrl := resolved }
      | false =>
        simp [hb, attemptsOf, backoffsOf, List.filterMap_cons, h, AttemptOut.isExn]

/-! ## Claim C2 -/

/-- C2: a fetch against a URL whose every rendered page carries a block
indicator performs exactly `maxRetries` attempts — the attempt numbers
recorded are precisely `1, ..., maxRetries` — and returns the terminal
failure `None`; the blocked HTML is never returned as success. -/
theorem c2_blocked_exhausts_retries (world : World) (d : Driver) (url : String)
    (maxRetries : Nat)
    (hb : ∀ k ∈ List.range' 1 maxRetries, ∃ pg r,
        world.render url k = .loaded pg r ∧ blockedHtml pg = true) :
    (fetch_with_selenium world d url maxRetries).1 = none ∧
    attemptsOf (fetch_with_selenium world d url maxRetries).2.2 =
      List.range' 1 maxRetries ∧
    (attemptsOf (fetch_with_selenium world d url maxRetries).2.2).length =
      maxRetries := by
  obtain ⟨h1, h2, _⟩ := fetchGo_blocked world url (List.range' 1 maxRetries) d hb
  refine ⟨h1, h2, ?_⟩
  unfold fetch_with_selenium
  rw [h2]
  simp

/-- Closed instance of `c2_blocked_exhausts_retries`: with three retries
against an always-blocked origin, the attempts are exactly `[1, 2, 3]` and
the result is `none`. -/
theorem c2_blocked_exhausts_retries_witness :
    (fetch_with_selenium blockedWorld ⟨"a", ""⟩ "https://h/jobs/list" 3).1 = none ∧
    attemptsOf (fetch_with_selenium blockedWorld ⟨"a", ""⟩ "https://h/jobs/list" 3).2.2 =
      [1, 2, 3] := by
  have h := c2_blocked_exhausts_retries blockedWorld ⟨"a", ""⟩ "https://h/jobs/list" 3
    (fun k _ => ⟨blockedPage, "https://h/blocked", rfl, rfl⟩)
  exact ⟨h.1, h.2.1⟩

/-! ## Claim C3 -/

/-- C3 counterexample: with two retries against an always-blocked origin,
both attempts are consumed but no exponential-backoff sleep is ever
recorded — the `continue` taken on a detected block indicator skips the
`time.sleep(2 ** attempt)` that a transport failure or timeout executes,
so the claimed backoff before the next attempt does not happen. -/
theorem c3_no_backoff_counterexample :
    attemptsOf (fetch_with_selenium blockedWorld ⟨"a", ""⟩ "https://h/x" 2).2.2 =
      [1, 2] ∧
    backoffsOf (fetch_with_selenium blockedWorld ⟨"a", ""⟩ "https://h/x" 2).2.2 =
      [] := ⟨rfl, rfl⟩

/-- C3 amended: a block-indicator attempt is consumed and retried, but the
exponential backoff sleep is applied only after attempts that raised
(timeout, transport, or unexpected error): the recorded backoff durations
are exactly `2 ^ k` for the exception attempts `k`, in order — never for
blocked attempts. -/
theorem c3_backoff_amended (world : World) (d : Driver) (url : String)
    (maxRetries : Nat) :
    backoffsOf (fetch_with_selenium world d url maxRetries).2.2 =
      ((attemptsOf (fetch_with_selenium world d url maxRetries).2.2).filter
        fun k => (world.render url k).isExn).map fun k => 2 ^ k :=
  fetchGo_backoffs world url (List.range' 1 maxRetries) d

/-! ## Listing-extractor lemmas -/

theorem collectUrls_ok (xs us : List Json) (h : collectUrls xs = .ok us) :
    us = xs.filterMap urlPick := by
  induction xs generalizing us with
  | nil =>
    simp only [collectUrls, Except.ok.injEq] at h
    subst h
    rfl
  | cons it rest ih =>
    cases it with
    | obj ikvs =>
      simp only [collectUrls, pyGet] at h
      split at h
      · cases h
      · rename_i tail hr
        cases h
        by_cases ht : (dictGetD ikvs "url" Json.null).truthy = true
        · simp [List.filterMap_cons, urlPick, ht, ih tail hr]
        · simp only [Bool.not_eq_true] at ht
          simp [List.filterMap_cons, urlPick, ht, ih tail hr]
    | null => simp [collectUrls, pyGet] at h
    | bool b => simp [collectUrls, pyGet] at h
    | num n => simp [collectUrls, pyGet] at h
    | str s => simp [collectUrls, pyGet] at h
    | arr l => simp [collectUrls, pyGet] at h

theorem itemsUrls_ok (items : Json) (xs us : List Json)
    (hi : pyIter items = .ok xs) (hc : collectUrls xs = .ok us) :
    us = specUrlsOfItems items := by
  cases items with
  | arr l =>
    simp only [pyIter, Except.ok.injEq] at hi
    subst hi
    simpa [specUrlsOfItems] using collectUrls_ok _ us hc
  | str s =>
    simp only [pyIter, Except.ok.injEq] at hi
    subst hi
    cases hs : s.data with
    | nil =>
      rw [hs] at hc
      simp only [List.map_nil, collectUrls, Except.ok.injEq] at hc
      subst hc
      rfl
    | cons c cs =>
      rw [hs] at hc
      simp [collectUrls, pyGet] at hc
  | obj kvs =>
    simp only [pyIter, Except.ok.injEq] at hi
    subst hi
    cases hs : kvs with
    | nil =>
      rw [hs] at hc
      simp only [List.map_nil, collectUrls, Except.ok.injEq] at hc
      subst hc
      rfl
    | cons kv rest =>
      rw [hs] at hc
      simp [collectUrls, pyGet] at hc
  | null => simp [pyIter] at hi
  | bool b => simp [pyIter] at hi
  | num n => simp [pyIter] at hi

theorem scanEntriesA_spec (es : List Json) (r : Option (List Json))
    (h : scanEntriesA es = .ok r) : es.findSome? specEntryUrls = r := by
  induction es generalizing r with
  | nil =>
    simp only [scanEntriesA, Except.ok.injEq] at h
    subst h
    rfl
  | cons e rest ih =>
    rw [List.findSome?_cons]
    cases e with
    | obj kvs =>
      simp only [scanEntriesA] at h
      split at h
      · rename_i htype
        split at h
        · cases h
        · rename_i items hi
          split at h
          · cases h
          · rename_i us hc
            have hus : us = specUrlsOfItems (dictGetD kvs "itemListElement" (Json.arr [])) :=
              itemsUrls_ok _ _ _ hi hc
            have hspec : specEntryUrls (Json.obj kvs) =
                if us.isEmpty then none else some us := by
              simp only [specEntryUrls, htype, if_true, ← hus]
            by_cases hemp : us.isEmpty = true
            · rw [if_pos hemp] at h
              rw [hspec, if_pos hemp]
              exact ih r h
            · rw [if_neg hemp] at h
              cases h
              rw [hspec, if_neg hemp]
      · rename_i htype
        have hnone : specEntryUrls (Json.obj kvs) = none := by
          simp [specEntryUrls, htype]
        rw [hnone]
        exact ih r h
    | null =>
      simp only [scanEntriesA] at h
      simpa [specEntryUrls] using ih r h
    | bool b =>
      simp only [scanEntriesA] at h
      simpa [specEntryUrls] using ih r h
    | num n =>
      simp only [scanEntriesA] at h
      simpa [specEntryUrls] using ih r h
    | str s =>
      simp only [scanEntriesA] at h
      simpa [specEntryUrls] using ih r h
    | arr l =>
      simp only [scanEntriesA] at h
      simpa [specEntryUrls] using ih r h

theorem stratA_spec (scripts : List Script) (r : Option (List Json))
    (h : stratA scripts = .ok r) : specFirstItemListUrls scripts = r := by
  induction scripts generalizing r with
  | nil =>
    simp only [stratA, Except.ok.injEq] at h
    subst h
    rfl
  | cons s rest ih =>
    simp only [stratA] at h
    split at h
    · rename_i hld
      split at h
      · rename_i htext
        simp only [specFirstItemListUrls, specScriptUrls, hld, if_true, htext]
        exact ih r h
      · rename_i t htext
        split at h
        · rename_i ht
          simp only [specFirstItemListUrls, specScriptUrls, hld, if_true, htext,
            if_pos ht]
          exact ih r h
        · rename_i ht
          split at h
          · rename_i hp
            simp only [specFirstItemListUrls, specScriptUrls, hld, if_true, htext,
              if_neg ht, hp]
            exact ih r h
          · rename_i d hp
            split at h
            · cases h
            · rename_i urls hs
              cases h
              simp [specFirstItemListUrls, specScriptUrls, hld, htext, if_neg ht,
                hp, scanEntriesA_spec _ _ hs]
            · rename_i hs
              simp only [specFirstItemListUrls, specScriptUrls, hld, if_true, htext,
                if_neg ht, hp, scanEntriesA_spec _ _ hs]
              exact ih r h
    · rename_i hld
      simp only [specFirstItemListUrls, specScriptUrls, if_neg hld]
      exact ih r h

theorem stratA_projA : ∀ (scripts scripts' : List Script),
    scripts.map projA = scripts'.map projA → stratA scripts = stratA scripts'
  | [], [], _ => rfl
  | [], _ :: _, h => by simp at h
  | _ :: _, [], h => by simp at h
  | s :: rest, s' :: rest', h => by
    simp only [List.map_cons, List.cons.injEq] at h
    obtain ⟨hh, ht⟩ := h
    have h1 : s.ldjson = s'.ldjson := congrArg (fun p => p.1) hh
    have h2 : s.text = s'.text := congrArg (fun p => p.2.1) hh
    have h3 : s.parse = s'.parse := congrArg (fun p => p.2.2) hh
    have hr := stratA_projA rest rest' ht
    simp only [stratA]
    rw [h1, h2, h3, hr]

/-! ## Claim C4 -/

/-- C4: when strategy A (the linked-data ItemList scan) yields a non-empty
URL list, `extract_job_list_urls` returns exactly that list; the same list
is returned for every page that agrees on the strategy-A-relevant script
data, whatever the inline strategy-B payloads hold (strategy B is never
consulted); and the list is precisely the specification's "first
linked-data ItemList block yielding a non-empty URL list, in order". -/
theorem c4_strategyA_precedence (scripts scripts' : List Script)
    (urls : List Json)
    (hA : stratA scripts = .ok (some urls))
    (hproj : scripts.map projA = scripts'.map projA) :
    extract_job_list_urls scripts = .ok urls ∧
    extract_job_list_urls scripts' = .ok urls ∧
    specFirstItemListUrls scripts = some urls := by
  have hA' : stratA scripts' = .ok (some urls) := by
    rw [← stratA_projA scripts scripts' hproj]; exact hA
  refine ⟨?_, ?_, stratA_spec scripts _ hA⟩
  · simp [extract_job_list_urls, hA]
  · simp [extract_job_list_urls, hA']

/-- Closed instance of `c4_strategyA_precedence`: a listing page with a
linked-data ItemList `[A, B, C]` and a decoy inline payload `[X, Y]`
extracts to `[A, B, C]`, and still does when the decoy payload is replaced
by a different one. -/
theorem c4_strategyA_precedence_witness :
    extract_job_list_urls [abcScript, decoyScript] =
      .ok [.str "A", .str "B", .str "C"] ∧
    extract_job_list_urls [abcScript, decoyScriptAlt] =
      .ok [.str "A", .str "B", .str "C"] ∧
    specFirstItemListUrls [abcScript, decoyScript] =
      some [.str "A", .str "B", .str "C"] :=
  c4_strategyA_precedence [abcScript, decoyScript] [abcScript, decoyScriptAlt]
    [.str "A", .str "B", .str "C"] rfl rfl

/-! ## Safety lemmas for the listing extractor -/

theorem collectUrls_allObj (xs : List Json)
    (h : ∀ it ∈ xs, ∃ ikvs, it = Json.obj ikvs) :
    ∃ us, collectUrls xs = .ok us := by
  induction xs with
  | nil => exact ⟨[], rfl⟩
  | cons it rest ih =>
    obtain ⟨ikvs, hik⟩ := h it (List.mem_cons_self it rest)
    obtain ⟨us, hus⟩ := ih fun it' hit' => h it' (List.mem_cons_of_mem _ hit')
    subst hik
    exact ⟨if (dictGetD ikvs "url" Json.null).truthy then
        dictGetD ikvs "url" Json.null :: us else us,
      by simp [collectUrls, pyGet, hus]⟩

theorem goodItems_collect (items : Json) (hg : goodItems items = true) :
    ∃ xs us, pyIter items = .ok xs ∧ collectUrls xs = .ok us := by
  cases items with
  | arr l =>
    simp only [goodItems, List.all_eq_true] at hg
    have hobj : ∀ it ∈ l, ∃ ikvs, it = Json.obj ikvs := by
      intro it hit
      have hh := hg it hit
      cases it with
      | obj ikvs => exact ⟨ikvs, rfl⟩
      | null => exact absurd hh (by simp)
      | bool b => exact absurd hh (by simp)
      | num n => exact absurd hh (by simp)
      | str s => exact absurd hh (by simp)
      | arr l2 => exact absurd hh (by simp)
    obtain ⟨us, hus⟩ := collectUrls_allObj l hobj
    exact ⟨l, us, rfl, hus⟩
  | null => simp [goodItems] at hg
  | bool b => simp [goodItems] at hg
  | num n => simp [goodItems] at hg
  | str s => simp [goodItems] at hg
  | obj kvs => simp [goodItems] at hg

theorem scanEntriesA_safe (es : List Json) (h : es.all entryWF = true) :
    ∃ r, scanEntriesA es = .ok r := by
  induction es with
  | nil => exact ⟨none, rfl⟩
  | cons e rest ih =>
    simp only [List.all_cons, Bool.and_eq_true] at h
    obtain ⟨r, hr⟩ := ih h.2
    cases e with
    | obj kvs =>
      by_cases htype : (dictGetD kvs "@type" Json.null).isStrEq "ItemList" = true
      · have hg : goodItems (dictGetD kvs "itemListElement" (Json.arr [])) = true := by
          have hh := h.1
          simpa [entryWF, htype] using hh
        obtain ⟨xs, us, hi, hc⟩ := goodItems_collect _ hg
        by_cases hemp : us.isEmpty = true
        · exact ⟨r, by simp [scanEntriesA, htype, hi, hc, hemp, hr]⟩
        · exact ⟨some us, by simp [scanEntriesA, htype, hi, hc, hemp]⟩
      · exact ⟨r, by simp [scanEntriesA, htype, hr]⟩
    | null => exact ⟨r, by simpa [scanEntriesA] using hr⟩
    | bool b => exact ⟨r, by simpa [scanEntriesA] using hr⟩
    | num n => exact ⟨r, by simpa [scanEntriesA] using hr⟩
    | str s => exact ⟨r, by simpa [scanEntriesA] using hr⟩
    | arr l => exact ⟨r, by simpa [scanEntriesA] using hr⟩

theorem stratA_safe (scripts : List Script) (h : scripts.all scriptWF = true) :
    ∃ r, stratA scripts = .ok r := by
  induction scripts with
  | nil => exact ⟨none, rfl⟩
  | cons s rest ih =>
    simp only [List.all_cons, Bool.and_eq_true] at h
    obtain ⟨r, hr⟩ := ih h.2
    by_cases hld : s.ldjson = true
    · cases htext : s.text with
      | none => exact ⟨r, by simp [stratA, hld, htext, hr]⟩
      | some t =>
        by_cases ht : t = ""
        · exact ⟨r, by simp [stratA, hld, htext, ht, hr]⟩
        · cases hp : s.parse with
          | none => exact ⟨r, by simp [stratA, hld, htext, ht, hp, hr]⟩
          | some d =>
            have hwfA : (entriesOf d).all entryWF = true := by
              have hh := (Bool.and_eq_true _ _ |>.mp h.1).1
              rw [hp] at hh
              simpa using hh
            obtain ⟨r', hs⟩ := scanEntriesA_safe _ hwfA
            cases r' with
            | some urls => exact ⟨some urls, by simp [stratA, hld, htext, ht, hp, hs]⟩
            | none => exact ⟨r, by simp [stratA, hld, htext, ht, hp, hs, hr]⟩
    · exact ⟨r, by simp [stratA, hld, hr]⟩

theorem stratB_safe (scripts : List Script) (h : scripts.all scriptWF = true) :
    ∃ us, stratB scripts = .ok us := by
  induction scripts with
  | nil => exact ⟨[], rfl⟩
  | cons s rest ih =>
    simp only [List.all_cons, Bool.and_eq_true] at h
    obtain ⟨us, hus⟩ := ih h.2
    by_cases hmk : strContains (s.text.getD "") itemListMarker = true
    · cases hnm : s.nextMatch with
      | noMatch => exact ⟨us, by simp [stratB, hmk, hnm, hus]⟩
      | decodeErr => exact ⟨us, by simp [stratB, hmk, hnm, hus]⟩
      | escErr =>
        have hh := (Bool.and_eq_true _ _ |>.mp h.1).2
        rw [hnm] at hh
        simp at hh
      | payload payload =>
        have hbwf : payloadWF payload = true := by
          have hh := (Bool.and_eq_true _ _ |>.mp h.1).2
          rw [hnm] at hh
          simpa using hh
        cases payload with
        | obj kvs =>
          simp only [payloadWF] at hbwf
          obtain ⟨xs, us2, hi, hc⟩ := goodItems_collect _ hbwf
          exact ⟨us2, by simp [stratB, hmk, hnm, pyGetD, hi, hc]⟩
        | null => simp [payloadWF] at hbwf
        | bool b => simp [payloadWF] at hbwf
        | num n => simp [payloadWF] at hbwf
        | str s2 => simp [payloadWF] at hbwf
        | arr l => simp [payloadWF] at hbwf
    · exact ⟨us, by simp [stratB, hmk, hus]⟩

theorem extract_skip (s : Script) (rest : List Script)
    (hparse : s.parse = none)
    (hnm : s.nextMatch = .noMatch ∨ s.nextMatch = .decodeErr) :
    extract_job_list_urls (s :: rest) = extract_job_list_urls rest := by
  have hA : stratA (s :: rest) = stratA rest := by
    by_cases hld : s.ldjson = true
    · cases htext : s.text with
      | none => simp [stratA, hld, htext]
      | some t =>
        by_cases ht : t = ""
        · simp [stratA, hld, htext, ht]
        · simp [stratA, hld, htext, ht, hparse]
    · simp [stratA, hld]
  have hB : stratB (s :: rest) = stratB rest := by
    by_cases hmk : strContains (s.text.getD "") itemListMarker = true
    · rcases hnm with hnm | hnm
      · simp [stratB, hmk, hnm]
      · simp [stratB, hmk, hnm]
    · simp [stratB, hmk]
  simp only [extract_job_list_urls, hA, hB]

/-! ## Claim C6 -/

/-- C6 counterexample: `extract_job_list_urls` can raise on malformed or
unparseable embedded data instead of returning a list. Two concrete
inputs: a linked-data block of well-formed JSON whose `itemListElement`
holds the non-object entry `"x"` raises `AttributeError` at
`item.get("url")`; and an inline marker-bearing script whose matched
fragment holds the truncated escape `\u12 ` raises `UnicodeDecodeError`
at the `unicode_escape` decode, which the `except json.JSONDecodeError`
handler does not catch. -/
theorem c6_raises_counterexample :
    extract_job_list_urls [rawStringItemScript] = .error .attributeError ∧
    extract_job_list_urls [badEscapeScript] = .error .unicodeDecodeError :=
  ⟨rfl, rfl⟩

/-- C6 amended: `extract_job_list_urls` never raises on malformed JSON —
a block whose JSON fails to decode, in strategy A or after un-escaping in
strategy B, is skipped and scanning continues — and on every page whose
decoded candidate payloads carry `itemListElement` lists of objects and
whose matched inline fragments un-escape cleanly, it returns a (possibly
empty) list without raising. It can still raise: `AttributeError` on a
decoded `itemListElement` with non-object entries, and
`UnicodeDecodeError` on a matched inline fragment with a malformed escape
sequence (both recorded by `c6_raises_counterexample`). -/
theorem c6_no_raise_amended (scripts : List Script) (s : Script)
    (rest : List Script)
    (hwf : scripts.all scriptWF = true)
    (hparse : s.parse = none)
    (hnm : s.nextMatch = .noMatch ∨ s.nextMatch = .decodeErr) :
    (∃ urls, extract_job_list_urls scripts = .ok urls) ∧
    extract_job_list_urls (s :: rest) = extract_job_list_urls rest := by
  refine ⟨?_, extract_skip s rest hparse hnm⟩
  obtain ⟨r, hA⟩ := stratA_safe scripts hwf
  cases r with
  | some urls => exact ⟨urls, by simp [extract_job_list_urls, hA]⟩
  | none =>
    obtain ⟨us, hB⟩ := stratB_safe scripts hwf
    exact ⟨us, by simp [extract_job_list_urls, hA, hB]⟩

/-- Closed instance of `c6_no_raise_amended`: a page opening with an
undecodable script extracts without raising, and the undecodable script is
skipped exactly. -/
theorem c6_no_raise_amended_witness :
    (∃ urls, extract_job_list_urls [undecodableScript, abcScript] = .ok urls) ∧
    extract_job_list_urls [undecodableScript, abcScript] =
      extract_job_list_urls [abcScript] :=
  c6_no_raise_amended [undecodableScript, abcScript] undecodableScript [abcScript]
    rfl rfl (Or.inr rfl)

/-! ## Detail-extractor lemmas -/

theorem append_eq_empty_left (s t : String) (h : s ++ t = "") : s = "" := by
  have h2 := congrArg String.data h
  rw [String.data_append] at h2
  have h3 : s.data = [] := (List.append_eq_nil.mp h2).1
  cases s
  simp_all

theorem collectLocs_spec (entries : List Json) :
    collectLocs entries = specLocalities entries := by
  induction entries with
  | nil => rfl
  | cons e rest ih =>
    simp only [specLocalities, List.filterMap_cons] at ih ⊢
    cases e with
    | obj ekvs =>
      cases haddr : dictGetD ekvs "address" (Json.obj []) with
      | obj akvs =>
        by_cases ht : (dictGetD akvs "addressLocality" Json.null).truthy = true
        · simp [collectLocs, specLocality, haddr, ht, ih]
        · simp only [Bool.not_eq_true] at ht
          simp [collectLocs, specLocality, haddr, ht, ih]
      | null => simp [collectLocs, specLocality, haddr, ih]
      | bool b => simp [collectLocs, specLocality, haddr, ih]
      | num n => simp [collectLocs, specLocality, haddr, ih]
      | str s => simp [collectLocs, specLocality, haddr, ih]
      | arr l => simp [collectLocs, specLocality, haddr, ih]
    | null => simp [collectLocs, specLocality, ih]
    | bool b => simp [collectLocs, specLocality, ih]
    | num n => simp [collectLocs, specLocality, ih]
    | str s => simp [collectLocs, specLocality, ih]
    | arr l => simp [collectLocs, specLocality, ih]

theorem collectLocs_truthy (entries : List Json) :
    (collectLocs entries).all Json.truthy = true := by
  induction entries with
  | nil => rfl
  | cons e rest ih =>
    cases e with
    | obj ekvs =>
      cases haddr : dictGetD ekvs "address" (Json.obj []) with
      | obj akvs =>
        by_cases ht : (dictGetD akvs "addressLocality" Json.null).truthy = true
        · simp [collectLocs, haddr, ht, ih]
        · simp only [Bool.not_eq_true] at ht
          simp [collectLocs, haddr, ht, ih]
      | null => simp [collectLocs, haddr, ih]
      | bool b => simp [collectLocs, haddr, ih]
      | num n => simp [collectLocs, haddr, ih]
      | str s => simp [collectLocs, haddr, ih]
      | arr l => simp [collectLocs, haddr, ih]
    | null => simp [collectLocs, ih]
    | bool b => simp [collectLocs, ih]
    | num n => simp [collectLocs, ih]
    | str s => simp [collectLocs, ih]
    | arr l => simp [collectLocs, ih]

theorem joinPy_map_str (sep : String) (ss : List String) :
    joinPy sep (ss.map Json.str) = .ok (joinStrs sep ss) := by
  induction ss with
  | nil => rfl
  | cons s rest ih =>
    simp only [List.map_cons, joinPy, ih, Except.map]
    cases rest with
    | nil => rfl
    | cons s2 r2 => rfl

theorem joinStrs_ne_empty (ss : List String) (hne : ss ≠ [])
    (h : ∀ s ∈ ss, s ≠ "") : joinStrs ", " ss ≠ "" := by
  cases ss with
  | nil => exact absurd rfl hne
  | cons s rest =>
    cases rest with
    | nil => exact h s (by simp)
    | cons s2 r2 =>
      intro hc
      exact h s (by simp) (append_eq_empty_left s ", "
        (append_eq_empty_left (s ++ ", ") (joinStrs ", " (s2 :: r2)) hc))

theorem normalizeDescription_ok (page : Html) (j2 : JobRecord)
    (h : j2.description = .null ∨ ∃ s, j2.description = .str s) :
    ∃ j3, normalizeDescription page j2 = .ok j3 ∧ j3.location = j2.location := by
  rcases h with h | ⟨s, h⟩
  · exact ⟨j2, by simp [normalizeDescription, h, Json.truthy], rfl⟩
  · by_cases hs : s = ""
    · exact ⟨j2, by simp [normalizeDescription, h, hs, Json.truthy], rfl⟩
    · refine ⟨{ j2 with description := .str (page.getText s) }, ?_, rfl⟩
      simp [normalizeDescription, h, hs, Json.truthy]

/-! ## Claim C5 -/

/-- C5: when the first `JobPosting` block's `jobLocation` is a list whose
collected localities are strings, `parse_job_posting` (absent an
organization or description that would make the record raise) returns a
record whose location is precisely those localities joined by a comma and
space — `Json.null` when no locality was found and no selector matches —
and the collected localities are exactly the specification's
"addressLocality values of the entries' address sub-objects, in order,
skipping entries that lack one". -/
theorem c5_location_join (page : Html) (url : String)
    (kvs : List (String × Json)) (entries : List Json) (ss : List String)
    (hfirst : firstJobPostingKvs page.ld = some kvs)
    (hloc : dictGetD kvs "jobLocation" .null = .arr entries)
    (hlocs : collectLocs entries = ss.map Json.str)
    (horg : ∃ okvs, dictGetD kvs "hiringOrganization" (.obj []) = .obj okvs)
    (hdesc : dictGetD kvs "description" .null = .null ∨
      ∃ ds, dictGetD kvs "description" .null = .str ds) :
    (∃ job, parse_job_posting page url = .ok job ∧
      (ss ≠ [] → job.location = .str (joinStrs ", " ss)) ∧
      (ss = [] → page.locationSels = [] → job.location = .null)) ∧
    specLocalities entries = collectLocs entries := by
  refine ⟨?_, (collectLocs_spec entries).symm⟩
  obtain ⟨okvs, horg⟩ := horg
  have hloc2 : locationFromLd kvs =
      .ok (if ss.isEmpty then Json.null else .str (joinStrs ", " ss)) := by
    simp only [locationFromLd, hloc, hlocs]
    cases ss with
    | nil => simp
    | cons s r =>
      have hjp := joinPy_map_str ", " (s :: r)
      simp only [List.map_cons] at hjp
      simp [hjp]
  have happly : applyJobPosting kvs
      ⟨.null, .null, .null, .null, url⟩ = .ok
      ⟨dictGetD kvs "title" .null, dictGetD okvs "name" .null,
        if ss.isEmpty then Json.null else .str (joinStrs ", " ss),
        dictGetD kvs "description" .null, url⟩ := by
    simp [applyJobPosting, pyGet, horg, hloc2]
  have hss : ∀ s ∈ ss, s ≠ "" := by
    intro s hs
    have hmem : Json.str s ∈ collectLocs entries := by
      rw [hlocs]
      exact List.mem_map_of_mem _ hs
    have ht := (List.all_eq_true.mp (collectLocs_truthy entries)) _ hmem
    simpa [Json.truthy] using ht
  set j1 : JobRecord :=
    ⟨dictGetD kvs "title" .null, dictGetD okvs "name" .null,
      if ss.isEmpty then Json.null else .str (joinStrs ", " ss),
      dictGetD kvs "description" .null, url⟩ with hj1
  have hfall : (applyFallbacks page j1).location =
      (if ss.isEmpty then
        (match page.locationSels with
         | [] => Json.null
         | ls => Json.str (joinStrs ", " ls))
       else Json.str (joinStrs ", " ss)) ∧
      ((applyFallbacks page j1).description = .null ∨
        ∃ s, (applyFallbacks page j1).description = .str s) := by
    constructor
    · cases hempty : ss with
      | nil =>
        simp only [applyFallbacks, hj1, hempty]
        simp [Json.truthy]
      | cons s r =>
        have hne : Json.truthy (.str (joinStrs ", " ss)) = true := by
          simp only [Json.truthy]
          simp [joinStrs_ne_empty ss (by simp [hempty]) hss]
        simp only [applyFallbacks, hj1, hempty] at hne ⊢
        simp [hne]
    · rcases hdesc with hd | ⟨ds, hd⟩
      · simp only [applyFallbacks, hj1, hd]
        cases page.descSel with
        | none => simp [Json.truthy]
        | some s => simp [Json.truthy]
      · simp only [applyFallbacks, hj1, hd]
        by_cases hds : ds = ""
        · cases page.descSel with
          | none => simp [Json.truthy, hds]
          | some s => simp [Json.truthy, hds]
        · simp [Json.truthy, hds]
  obtain ⟨j3, hnorm, hloc3⟩ := normalizeDescription_ok page (applyFallbacks page j1)
    hfall.2
  refine ⟨j3, ?_, ?_, ?_⟩
  · simp only [parse_job_posting, hfirst, happly, hnorm]
  · intro hne
    rw [hloc3, hfall.1]
    simp [List.isEmpty_iff, hne]
  · intro hemp hsel
    rw [hloc3, hfall.1, hsel]
    simp [hemp]

/-- Closed instance of `c5_location_join`: the `Tree Planter` page with
localities `Austin` and `Denver` parses to a record whose location is
`"Austin, Denver"`. -/
theorem c5_location_join_witness :
    ∃ job, parse_job_posting austinDenverPage "https://h/a/9" = .ok job ∧
      job.location = .str "Austin, Denver" := by
  obtain ⟨⟨job, hj, h1, _⟩, _⟩ := c5_location_join austinDenverPage "https://h/a/9"
    austinKvs austinEntries ["Austin", "Denver"] rfl rfl rfl
    ⟨[("name", .str "EcoRegen")], rfl⟩ (Or.inr ⟨"Plant trees.", rfl⟩)
  refine ⟨job, hj, ?_⟩
  have hjs : joinStrs ", " ["Austin", "Denver"] = "Austin, Denver" := rfl
  rw [← hjs]
  exact h1 (by simp)

/-! ## Pipeline lemmas -/

theorem fetch_events (world : World) (d : Driver) (url : String) (mr : Nat) :
    ((fetch_with_selenium world d url mr).2.2).all fetchEvB = true :=
  fetchGo_events world url (List.range' 1 mr) d

theorem fetch_ua (world : World) (d : Driver) (url : String) (mr : Nat) :
    (fetch_with_selenium world d url mr).2.1.ua = d.ua :=
  fetchGo_ua world url (List.range' 1 mr) d

theorem fetch_idents (world : World) (d : Driver) (url : String) (mr : Nat) :
    ((fetch_with_selenium world d url mr).2.2).all (uaOk d.ua) = true :=
  fetchGo_idents world url (List.range' 1 mr) d

theorem fetch_no_resolves (world : World) (d : Driver) (url : String) (mr : Nat) :
    resolvesOf (fetch_with_selenium world d url mr).2.2 = [] :=
  all_fetchEvB_resolves _ (fetch_events world d url mr)

theorem resolveItem_evWithin (m : Nat) (d : Driver) (s : String) :
    ((resolveItem d s).2).all (evWithin m) = true := by
  unfold resolveItem
  split
  · rfl
  · rfl

theorem resolveItem_uaOk (u : String) (d : Driver) (s : String) :
    ((resolveItem d s).2).all (uaOk u) = true := by
  unfold resolveItem
  split
  · rfl
  · rfl

theorem limitHit_false_lt (cfg : Config) (m n : Nat)
    (hm : cfg.maxJobs = some m) (h : limitHit cfg n = false) : n < m := by
  simp only [limitHit, hm, decide_eq_false_iff_not, Nat.not_le] at h
  exact h

theorem processItems_limit (cfg : Config) (world : World) (m : Nat)
    (hm : cfg.maxJobs = some m) :
    ∀ (us : List Json) (d : Driver) (jobs : List JobRecord),
    jobs.length < m →
    (processItems cfg world d jobs us).jobs.length ≤ m ∧
    ((processItems cfg world d jobs us).tr).all (evWithin m) = true := by
  intro us
  induction us with
  | nil =>
    intro d jobs h
    exact ⟨by simpa [processItems] using Nat.le_of_lt h, by simp [processItems]⟩
  | cons u rest ih =>
    intro d jobs h
    cases u with
    | str s =>
      simp only [processItems]
      cases hf1 : (fetch_with_selenium world d (resolveItem d s).1 cfg.maxRetries).1 with
      | none =>
        simp only [hf1]
        refine ⟨(ih _ jobs h).1, ?_⟩
        simp [List.all_append, resolveItem_evWithin, evWithin, h,
          all_fetchEvB_evWithin m _ (fetch_events world d _ cfg.maxRetries),
          (ih _ jobs h).2]
      | some pg =>
        simp only [hf1]
        cases hp : parse_job_posting pg (resolveItem d s).1 with
        | error e =>
          simp only [hp]
          refine ⟨Nat.le_of_lt h, ?_⟩
          simp [List.all_append, resolveItem_evWithin, evWithin, h,
            all_fetchEvB_evWithin m _ (fetch_events world d _ cfg.maxRetries)]
        | ok job =>
          simp only [hp]
          by_cases htt : job.title.truthy = true
          · simp only [htt, if_true]
            by_cases hl : limitHit cfg (jobs ++ [job]).length = true
            · simp only [hl, if_true]
              refine ⟨by simpa using h, ?_⟩
              simp [List.all_append, resolveItem_evWithin, evWithin, h,
                all_fetchEvB_evWithin m _ (fetch_events world d _ cfg.maxRetries)]
            · simp only [Bool.not_eq_true] at hl
              simp only [hl, Bool.false_eq_true, if_false]
              have hlt : (jobs ++ [job]).length < m :=
                limitHit_false_lt cfg m _ hm hl
              refine ⟨(ih _ (jobs ++ [job]) hlt).1, ?_⟩
              simp [List.all_append, resolveItem_evWithin, evWithin, h,
                all_fetchEvB_evWithin m _ (fetch_events world d _ cfg.maxRetries),
                (ih _ (jobs ++ [job]) hlt).2]
          · simp only [Bool.not_eq_true] at htt
            simp only [htt, Bool.false_eq_true, if_false]
            refine ⟨(ih _ jobs h).1, ?_⟩
            simp [List.all_append, resolveItem_evWithin, evWithin, h,
              all_fetchEvB_evWithin m _ (fetch_events world d _ cfg.maxRetries),
              (ih _ jobs h).2]
    | null => exact ⟨by simpa [processItems] using Nat.le_of_lt h, by simp [processItems]⟩
    | bool b => exact ⟨by simpa [processItems] using Nat.le_of_lt h, by simp [processItems]⟩
    | num n => exact ⟨by simpa [processItems] using Nat.le_of_lt h, by simp [processItems]⟩
    | arr l => exact ⟨by simpa [processItems] using Nat.le_of_lt h, by simp [processItems]⟩
    | obj kvs => exact ⟨by simpa [processItems] using Nat.le_of_lt h, by simp [processItems]⟩

theorem processItems_ua (cfg : Config) (world : World) :
    ∀ (us : List Json) (d : Driver) (jobs : List JobRecord),
    (processItems cfg world d jobs us).d.ua = d.ua ∧
    ((processItems cfg world d jobs us).tr).all (uaOk d.ua) = true := by
  intro us
  induction us with
  | nil => intro d jobs; exact ⟨rfl, rfl⟩
  | cons u rest ih =>
    intro d jobs
    cases u with
    | str s =>
      have hfu := fetch_ua world d (resolveItem d s).1 cfg.maxRetries
      have hfi := fetch_idents world d (resolveItem d s).1 cfg.maxRetries
      simp only [processItems]
      cases hf1 : (fetch_with_selenium world d (resolveItem d s).1 cfg.maxRetries).1 with
      | none =>
        simp only [hf1]
        obtain ⟨ihu, iht⟩ := ih (fetch_with_selenium world d (resolveItem d s).1
          cfg.maxRetries).2.1 jobs
        rw [hfu] at ihu iht
        exact ⟨ihu, by simp [List.all_append, resolveItem_uaOk, uaOk, hfi, iht]⟩
      | some pg =>
        simp only [hf1]
        cases hp : parse_job_posting pg (resolveItem d s).1 with
        | error e =>
          simp only [hp]
          exact ⟨hfu, by simp [List.all_append, resolveItem_uaOk, uaOk, hfi]⟩
        | ok job =>
          simp only [hp]
          by_cases htt : job.title.truthy = true
          · simp only [htt, if_true]
            by_cases hl : limitHit cfg (jobs ++ [job]).length = true
            · simp only [hl, if_true]
              exact ⟨hfu, by simp [List.all_append, resolveItem_uaOk, uaOk, hfi]⟩
            · simp only [Bool.not_eq_true] at hl
              simp only [hl, Bool.false_eq_true, if_false]
              obtain ⟨ihu, iht⟩ := ih (fetch_with_selenium world d
                (resolveItem d s).1 cfg.maxRetries).2.1 (jobs ++ [job])
              rw [hfu] at ihu iht
              exact ⟨ihu, by simp [List.all_append, resolveItem_uaOk, uaOk, hfi, iht]⟩
          · simp only [Bool.not_eq_true] at htt
            simp only [htt, Bool.false_eq_true, if_false]
            obtain ⟨ihu, iht⟩ := ih (fetch_with_selenium world d
              (resolveItem d s).1 cfg.maxRetries).2.1 jobs
            rw [hfu] at ihu iht
            exact ⟨ihu, by simp [List.all_append, resolveItem_uaOk, uaOk, hfi, iht]⟩
    | null => exact ⟨rfl, rfl⟩
    | bool b => exact ⟨rfl, rfl⟩
    | num n => exact ⟨rfl, rfl⟩
    | arr l => exact ⟨rfl, rfl⟩
    | obj kvs => exact ⟨rfl, rfl⟩

theorem processItems_titles (cfg : Config) (world : World) :
    ∀ (us : List Json) (d : Driver) (jobs : List JobRecord),
    jobs.all titleOk = true →
    ((processItems cfg world d jobs us).jobs).all titleOk = true := by
  intro us
  induction us with
  | nil => intro d jobs h; simpa [processItems] using h
  | cons u rest ih =>
    intro d jobs h
    cases u with
    | str s =>
      simp only [processItems]
      cases hf1 : (fetch_with_selenium world d (resolveItem d s).1 cfg.maxRetries).1 with
      | none =>
        simp only [hf1]
        exact ih _ jobs h
      | some pg =>
        simp only [hf1]
        cases hp : parse_job_posting pg (resolveItem d s).1 with
        | error e => simp only [hp]; exact h
        | ok job =>
          simp only [hp]
          by_cases htt : job.title.truthy = true
          · simp only [htt, if_true]
            by_cases hl : limitHit cfg (jobs ++ [job]).length = true
            · simp only [hl, if_true]
              simp [List.all_append, h, titleOk, htt]
            · simp only [Bool.not_eq_true] at hl
              simp only [hl, Bool.false_eq_true, if_false]
              exact ih _ (jobs ++ [job]) (by simp [List.all_append, h, titleOk, htt])
          · simp only [Bool.not_eq_true] at htt
            simp only [htt, Bool.false_eq_true, if_false]
            exact ih _ jobs h
    | null => simpa [processItems] using h
    | bool b => simpa [processItems] using h
    | num n => simpa [processItems] using h
    | arr l => simpa [processItems] using h
    | obj kvs => simpa [processItems] using h

theorem pageLoop_titles (cfg : Config) (world : World) :
    ∀ (ps : List Nat) (d : Driver) (jobs : List JobRecord),
    jobs.all titleOk = true →
    ((pageLoop cfg world d jobs ps).jobs).all titleOk = true := by
  intro ps
  induction ps with
  | nil => intro d jobs h; simpa [pageLoop] using h
  | cons p ps ih =>
    intro d jobs h
    simp only [pageLoop]
    cases hf1 : (fetch_with_selenium world d (pageUrl cfg p) cfg.maxRetries).1 with
    | none => simpa [hf1] using h
    | some pg =>
      simp only [hf1]
      cases he : extract_job_list_urls pg.scripts with
      | error e => simp only [he]; exact h
      | ok urls =>
        cases urls with
        | nil => simp only [he]; exact h
        | cons u0 urest =>
          simp only [he]
          have hr := processItems_titles cfg world (u0 :: urest)
            (fetch_with_selenium world d (pageUrl cfg p) cfg.maxRetries).2.1 jobs h
          cases herr : (processItems cfg world
              (fetch_with_selenium world d (pageUrl cfg p) cfg.maxRetries).2.1 jobs
              (u0 :: urest)).err with
          | some e => simp only [herr]; exact hr
          | none =>
            simp only [herr]
            by_cases hl : limitHit cfg (processItems cfg world
                (fetch_with_selenium world d (pageUrl cfg p) cfg.maxRetries).2.1 jobs
                (u0 :: urest)).jobs.length = true
            · simp only [hl, if_true]
              exact hr
            · simp only [Bool.not_eq_true] at hl
              simp only [hl, Bool.false_eq_true, if_false]
              exact ih _ _ hr

theorem pageLoop_limit (cfg : Config) (world : World) (m : Nat)
    (hm : cfg.maxJobs = some m) :
    ∀ (ps : List Nat) (d : Driver) (jobs : List JobRecord),
    jobs.length < m →
    (pageLoop cfg world d jobs ps).jobs.length ≤ m ∧
    ((pageLoop cfg world d jobs ps).tr).all (evWithin m) = true := by
  intro ps
  induction ps with
  | nil =>
    intro d jobs h
    exact ⟨by simpa [pageLoop] using Nat.le_of_lt h, by simp [pageLoop]⟩
  | cons p ps ih =>
    intro d jobs h
    simp only [pageLoop]
    cases hf1 : (fetch_with_selenium world d (pageUrl cfg p) cfg.maxRetries).1 with
    | none =>
      simp only [hf1]
      refine ⟨Nat.le_of_lt h, ?_⟩
      simp [List.all_append, evWithin, h,
        all_fetchEvB_evWithin m _ (fetch_events world d _ cfg.maxRetries)]
    | some pg =>
      simp only [hf1]
      cases he : extract_job_list_urls pg.scripts with
      | error e =>
        simp only [he]
        refine ⟨Nat.le_of_lt h, ?_⟩
        simp [List.all_append, evWithin, h,
          all_fetchEvB_evWithin m _ (fetch_events world d _ cfg.maxRetries)]
      | ok urls =>
        cases urls with
        | nil =>
          simp only [he]
          refine ⟨Nat.le_of_lt h, ?_⟩
          simp [List.all_append, evWithin, h,
            all_fetchEvB_evWithin m _ (fetch_events world d _ cfg.maxRetries)]
        | cons u0 urest =>
          simp only [he]
          obtain ⟨hrl, hrt⟩ := processItems_limit cfg world m hm (u0 :: urest)
            (fetch_with_selenium world d (pageUrl cfg p) cfg.maxRetries).2.1 jobs h
          cases herr : (processItems cfg world
              (fetch_with_selenium world d (pageUrl cfg p) cfg.maxRetries).2.1 jobs
              (u0 :: urest)).err with
          | some e =>
            simp only [herr]
            refine ⟨hrl, ?_⟩
            simp [List.all_append, evWithin, h, hrt,
              all_fetchEvB_evWithin m _ (fetch_events world d _ cfg.maxRetries)]
          | none =>
            simp only [herr]
            by_cases hl : limitHit cfg (processItems cfg world
                (fetch_with_selenium world d (pageUrl cfg p) cfg.maxRetries).2.1 jobs
                (u0 :: urest)).jobs.length = true
            · simp only [hl, if_true]
              refine ⟨hrl, ?_⟩
              simp [List.all_append, evWithin, h, hrt,
                all_fetchEvB_evWithin m _ (fetch_events world d _ cfg.maxRetries)]
            · simp only [Bool.not_eq_true] at hl
              simp only [hl, Bool.false_eq_true, if_false]
              obtain ⟨h2l, h2t⟩ := ih _ _ (limitHit_false_lt cfg m _ hm hl)
              refine ⟨h2l, ?_⟩
              simp [List.all_append, evWithin, h, hrt, h2t,
                all_fetchEvB_evWithin m _ (fetch_events world d _ cfg.maxRetries)]

theorem pageLoop_ua (cfg : Config) (world : World) :
    ∀ (ps : List Nat) (d : Driver) (jobs : List JobRecord),
    (pageLoop cfg world d jobs ps).d.ua = d.ua ∧
    ((pageLoop cfg world d jobs ps).tr).all (uaOk d.ua) = true := by
  intro ps
  induction ps with
  | nil => intro d jobs; exact ⟨rfl, rfl⟩
  | cons p ps ih =>
    intro d jobs
    have hfu := fetch_ua world d (pageUrl cfg p) cfg.maxRetries
    have hfi := fetch_idents world d (pageUrl cfg p) cfg.maxRetries
    simp only [pageLoop]
    cases hf1 : (fetch_with_selenium world d (pageUrl cfg p) cfg.maxRetries).1 with
    | none =>
      simp only [hf1]
      exact ⟨hfu, by simp [List.all_append, uaOk, hfi]⟩
    | some pg =>
      simp only [hf1]
      cases he : extract_job_list_urls pg.scripts with
      | error e =>
        simp only [he]
        exact ⟨hfu, by simp [List.all_append, uaOk, hfi]⟩
      | ok urls =>
        cases urls with
        | nil =>
          simp only [he]
          exact ⟨hfu, by simp [List.all_append, uaOk, hfi]⟩
        | cons u0 urest =>
          simp only [he]
          obtain ⟨hru, hrt⟩ := processItems_ua cfg world (u0 :: urest)
            (fetch_with_selenium world d (pageUrl cfg p) cfg.maxRetries).2.1 jobs
          rw [hfu] at hru hrt
          cases herr : (processItems cfg world
              (fetch_with_selenium world d (pageUrl cfg p) cfg.maxRetries).2.1 jobs
              (u0 :: urest)).err with
          | some e =>
            simp only [herr]
            exact ⟨hru, by simp [List.all_append, uaOk, hfi, hrt]⟩
          | none =>
            simp only [herr]
            by_cases hl : limitHit cfg (processItems cfg world
                (fetch_with_selenium world d (pageUrl cfg p) cfg.maxRetries).2.1 jobs
                (u0 :: urest)).jobs.length = true
            · simp only [hl, if_true]
              exact ⟨hru, by simp [List.all_append, uaOk, hfi, hrt]⟩
            · simp only [Bool.not_eq_true] at hl
              simp only [hl, Bool.false_eq_true, if_false]
              obtain ⟨h2u, h2t⟩ := ih (processItems cfg world
                (fetch_with_selenium world d (pageUrl cfg p) cfg.maxRetries).2.1 jobs
                (u0 :: urest)).d (processItems cfg world
                (fetch_with_selenium world d (pageUrl cfg p) cfg.maxRetries).2.1 jobs
                (u0 :: urest)).jobs
              rw [hru] at h2u h2t
              exact ⟨h2u, by simp [List.all_append, uaOk, hfi, hrt, h2t]⟩

theorem afterEntry_titles (cfg : Config) (world : World) (r1 : StRes)
    (h : r1.jobs.all titleOk = true) :
    ((afterEntry cfg world r1).jobs).all titleOk = true := by
  simp only [afterEntry]
  cases herr : r1.err with
  | some e => simpa [herr] using h
  | none =>
    simp only [herr]
    by_cases hl : limitHit cfg r1.jobs.length = true
    · simpa [hl] using h
    · simp only [Bool.not_eq_true] at hl
      simp only [hl, Bool.false_eq_true, if_false]
      exact pageLoop_titles cfg world (pageNums cfg) r1.d r1.jobs h

theorem afterEntry_limit (cfg : Config) (world : World) (m : Nat) (r1 : StRes)
    (hm : cfg.maxJobs = some m)
    (hl1 : r1.jobs.length ≤ m)
    (ht1 : r1.tr.all (evWithin m) = true) :
    (afterEntry cfg world r1).jobs.length ≤ m ∧
    ((afterEntry cfg world r1).trace).all (evWithin m) = true := by
  simp only [afterEntry]
  cases herr : r1.err with
  | some e => exact ⟨by simpa [herr] using hl1, by simpa [herr] using ht1⟩
  | none =>
    simp only [herr]
    by_cases hl : limitHit cfg r1.jobs.length = true
    · exact ⟨by simpa [hl] using hl1, by simpa [hl] using ht1⟩
    · simp only [Bool.not_eq_true] at hl
      simp only [hl, Bool.false_eq_true, if_false]
      obtain ⟨h2l, h2t⟩ := pageLoop_limit cfg world m hm (pageNums cfg) r1.d r1.jobs
        (limitHit_false_lt cfg m _ hm hl)
      exact ⟨h2l, by simp [List.all_append, ht1, h2t]⟩

theorem afterEntry_ua (cfg : Config) (world : World) (u : String) (r1 : StRes)
    (hu : r1.d.ua = u) (ht : r1.tr.all (uaOk u) = true) :
    ((afterEntry cfg world r1).trace).all (uaOk u) = true := by
  simp only [afterEntry]
  cases herr : r1.err with
  | some e => simpa [herr] using ht
  | none =>
    simp only [herr]
    by_cases hl : limitHit cfg r1.jobs.length = true
    · simpa [hl] using ht
    · simp only [Bool.not_eq_true] at hl
      simp only [hl, Bool.false_eq_true, if_false]
      obtain ⟨_, h2t⟩ := pageLoop_ua cfg world (pageNums cfg) r1.d r1.jobs
      rw [hu] at h2t
      simp [List.all_append, ht, h2t]

/-! ## Claim C7 -/

/-- C7: every record in the final accumulator of a run has a truthy title
(in particular, never `None` and never the empty string): a parsed record
whose title is empty or unset is discarded before the append, whatever its
other fields hold. -/
theorem c7_titles_truthy (cfg : Config) (world : World) (rands : Nat → Nat) :
    ((runPipeline cfg world rands).jobs).all titleOk = true := by
  simp only [runPipeline]
  cases hf1 : (fetch_with_selenium world
      ⟨cfg.headers.getD (rands 0 % cfg.headers.length) "", ""⟩
      cfg.targetUrl cfg.maxRetries).1 with
  | none => simp [hf1]
  | some pg1 =>
    simp only [hf1]
    cases he : extract_job_list_urls pg1.scripts with
    | error e => simp [he]
    | ok urls1 =>
      simp only [he]
      apply afterEntry_titles
      by_cases hemp : urls1.isEmpty = true
      · simp [hemp]
      · simp only [Bool.not_eq_true] at hemp
        simp only [hemp, Bool.false_eq_true, if_false]
        exact processItems_titles cfg world urls1 _ [] rfl

/-! ## Claim C1 -/

/-- C1 counterexample: with `MAX_JOBS = 0` set, a run against a listing
with one acceptable item still appends one record — the limit is checked
only after the append, so the accumulator exceeds `maxRecords = 0`. -/
theorem c1_zero_limit_counterexample :
    cfgZeroLimit.maxJobs = some 0 ∧
    (runPipeline cfgZeroLimit oneJobWorld fun _ => 0).jobs.length = 1 :=
  ⟨rfl, rfl⟩

/-- C1 amended: for every run whose record limit is set to `m ≥ 1`, the
accumulator never exceeds `m` — the post-append check stops item
processing the moment the size reaches `m` — and every item fetch and
every listing-page fetch is initiated only while the accumulator is
strictly below `m` (so a reached limit abandons the rest of the page and
no further listing page is fetched). With `m = 0` the first acceptable
record is still appended, which is what `c1_zero_limit_counterexample`
records. -/
theorem c1_limit_amended (cfg : Config) (world : World) (rands : Nat → Nat)
    (m : Nat) (hm : cfg.maxJobs = some m) (hm1 : 1 ≤ m) :
    (runPipeline cfg world rands).jobs.length ≤ m ∧
    ((runPipeline cfg world rands).trace).all (evWithin m) = true := by
  simp only [runPipeline]
  cases hf1 : (fetch_with_selenium world
      ⟨cfg.headers.getD (rands 0 % cfg.headers.length) "", ""⟩
      cfg.targetUrl cfg.maxRetries).1 with
  | none =>
    refine ⟨by simp, ?_⟩
    simpa using all_fetchEvB_evWithin m _ (fetch_events world _ _ cfg.maxRetries)
  | some pg1 =>
    simp only [hf1]
    cases he : extract_job_list_urls pg1.scripts with
    | error e =>
      refine ⟨by simp, ?_⟩
      simpa using all_fetchEvB_evWithin m _ (fetch_events world _ _ cfg.maxRetries)
    | ok urls1 =>
      simp only [he]
      apply afterEntry_limit cfg world m _ hm
      · by_cases hemp : urls1.isEmpty = true
        · simp [hemp]
        · simp only [Bool.not_eq_true] at hemp
          simp only [hemp, Bool.false_eq_true, if_false]
          exact (processItems_limit cfg world m hm urls1 _ []
            (by simpa using hm1)).1
      · simp only [List.all_append, Bool.and_eq_true]
        refine ⟨all_fetchEvB_evWithin m _ (fetch_events world _ _ cfg.maxRetries), ?_⟩
        by_cases hemp : urls1.isEmpty = true
        · simp [hemp]
        · simp only [Bool.not_eq_true] at hemp
          simp only [hemp, Bool.false_eq_true, if_false]
          exact (processItems_limit cfg world m hm urls1 _ []
            (by simpa using hm1)).2

/-- Closed instance of `c1_limit_amended`: with `MAX_JOBS = 1` against the
same one-item listing, the accumulator holds at most one record. -/
theorem c1_limit_amended_witness :
    (runPipeline cfgOneLimit oneJobWorld fun _ => 0).jobs.length ≤ 1 :=
  (c1_limit_amended cfgOneLimit oneJobWorld (fun _ => 0) 1 rfl (by decide)).1

/-! ## Claim C9 -/

/-- C9 counterexample: the identity presented to the render capability is
not freshly drawn per attempt. On a run making two render attempts, both
attempts present the same pool entry, and the whole identity sequence is
unchanged when every random draw after the setup draw changes — whereas
the specification's per-call draw (`specAttemptIdentities`) yields
`["a", "b"]` for those draws. -/
theorem c9_identity_counterexample :
    identsOf (runPipeline cfgTwoHeaders twoAttemptWorld fun _ => 0).trace =
      ["a", "a"] ∧
    identsOf (runPipeline cfgTwoHeaders twoAttemptWorld fun k => k).trace =
      ["a", "a"] ∧
    specAttemptIdentities cfgTwoHeaders.headers (fun k => k) 2 = ["a", "b"] ∧
    (["a", "a"] : List String) ≠ ["a", "b"] :=
  ⟨rfl, rfl, rfl, by decide⟩

/-- C9 amended: the identity is drawn uniformly at random once, at driver
construction (`random.choice(HEADERS)` consuming the setup draw), and is
fixed for the entire run: every render attempt of the run presents that
same pool entry. -/
theorem c9_identity_amended (cfg : Config) (world : World) (rands : Nat → Nat) :
    ((runPipeline cfg world rands).trace).all
      (uaOk (cfg.headers.getD (rands 0 % cfg.headers.length) "")) = true := by
  simp only [runPipeline]
  cases hf1 : (fetch_with_selenium world
      ⟨cfg.headers.getD (rands 0 % cfg.headers.length) "", ""⟩
      cfg.targetUrl cfg.maxRetries).1 with
  | none =>
    simpa [hf1] using fetch_idents world
      ⟨cfg.headers.getD (rands 0 % cfg.headers.length) "", ""⟩
      cfg.targetUrl cfg.maxRetries
  | some pg1 =>
    simp only [hf1]
    cases he : extract_job_list_urls pg1.scripts with
    | error e =>
      simpa [he] using fetch_idents world
        ⟨cfg.headers.getD (rands 0 % cfg.headers.length) "", ""⟩
        cfg.targetUrl cfg.maxRetries
    | ok urls1 =>
      simp only [he]
      apply afterEntry_ua
      · by_cases hemp : urls1.isEmpty = true
        · simpa [hemp] using fetch_ua world
            ⟨cfg.headers.getD (rands 0 % cfg.headers.length) "", ""⟩
            cfg.targetUrl cfg.maxRetries
        · simp only [Bool.not_eq_true] at hemp
          simp only [hemp, Bool.false_eq_true, if_false]
          obtain ⟨hru, _⟩ := processItems_ua cfg world urls1
            (fetch_with_selenium world
              ⟨cfg.headers.getD (rands 0 % cfg.headers.length) "", ""⟩
              cfg.targetUrl cfg.maxRetries).2.1 []
          rw [hru]
          exact fetch_ua world _ cfg.targetUrl cfg.maxRetries
      · simp only [List.all_append, Bool.and_eq_true]
        refine ⟨fetch_idents world _ cfg.targetUrl cfg.maxRetries, ?_⟩
        by_cases hemp : urls1.isEmpty = true
        · simp [hemp]
        · simp only [Bool.not_eq_true] at hemp
          simp only [hemp, Bool.false_eq_true, if_false]
          obtain ⟨_, hrt⟩ := processItems_ua cfg world urls1
            (fetch_with_selenium world
              ⟨cfg.headers.getD (rands 0 % cfg.headers.length) "", ""⟩
              cfg.targetUrl cfg.maxRetries).2.1 []
          rw [fetch_ua world _ cfg.targetUrl cfg.maxRetries] at hrt
          exact hrt

/-! ## Claim C8 -/

theorem resolvesOf_nil : resolvesOf [] = [] := rfl

theorem resolvesOf_append (a b : List TraceEv) :
    resolvesOf (a ++ b) = resolvesOf a ++ resolvesOf b := by
  simp [resolvesOf, List.filterMap_append]

theorem resolvesOf_resolve (b r : String) (tr : List TraceEv) :
    resolvesOf (.resolve b r :: tr) = (b, r) :: resolvesOf tr := by
  simp [resolvesOf, List.filterMap_cons]

theorem resolvesOf_itemFetch (u : String) (n : Nat) (tr : List TraceEv) :
    resolvesOf (.itemFetch u n :: tr) = resolvesOf tr := by
  simp [resolvesOf, List.filterMap_cons]

/-- C8 counterexample: in a run whose listing page resolves to
`https://h/jobs/list` and lists the absolute item `https://h/a/1` followed
by the relative item `x2`, the relative item is resolved against
`https://h/a/1` — the URL of the previously fetched item page, which
`driver.current_url` now holds — and not against the listing page's
resolved URL. -/
theorem c8_base_drift_counterexample :
    (fetch_with_selenium driftWorld ⟨"a", ""⟩ cfgNoLimit.targetUrl
      cfgNoLimit.maxRetries).2.1.curUrl = "https://h/jobs/list" ∧
    resolvesOf (runPipeline cfgNoLimit driftWorld fun _ => 0).trace =
      [("https://h/a/1", "x2")] ∧
    ("https://h/a/1" : String) ≠ "https://h/jobs/list" :=
  ⟨rfl, rfl, by decide⟩

/-- C8 amended: a relative item URL is resolved against
`driver.current_url` at the moment its iteration runs. For the first item
of a page that is the listing page's resolved URL (the first conjunct);
but after a successful item fetch the driver has navigated away, so the
next relative item resolves against the URL the driver then holds — the
previous item's resolved URL, not the listing page's (the second
conjunct). -/
theorem c8_resolution_amended (cfg : Config) (world : World) (d : Driver)
    (jobs : List JobRecord) (s s1 s2 : String) (rest : List Json)
    (pg : Html) (job : JobRecord)
    (hrel : strStartsWith s "http" = false)
    (habs : strStartsWith s1 "http" = true)
    (hrel2 : strStartsWith s2 "http" = false)
    (hf : (fetch_with_selenium world d s1 cfg.maxRetries).1 = some pg)
    (hp : parse_job_posting pg s1 = .ok job)
    (htt : job.title.truthy = true)
    (hl : limitHit cfg (jobs.length + 1) = false) :
    (∃ tl, resolvesOf ((processItems cfg world d jobs (Json.str s :: rest)).tr) =
      (d.curUrl, s) :: tl) ∧
    resolvesOf ((processItems cfg world d jobs [Json.str s1, Json.str s2]).tr) =
      [((fetch_with_selenium world d s1 cfg.maxRetries).2.1.curUrl, s2)] := by
  constructor
  · have hres : resolveItem d s = (urljoin d.curUrl s, [.resolve d.curUrl s]) := by
      simp [resolveItem, hrel]
    simp only [processItems, hres]
    cases hf1 : (fetch_with_selenium world d (urljoin d.curUrl s) cfg.maxRetries).1 with
    | none =>
      simp only [hf1]
      refine ⟨resolvesOf (processItems cfg world (fetch_with_selenium world d
        (urljoin d.curUrl s) cfg.maxRetries).2.1 jobs rest).tr, ?_⟩
      simp [resolvesOf_append, resolvesOf_resolve, resolvesOf_itemFetch,
        resolvesOf_nil, fetch_no_resolves]
    | some pg0 =>
      simp only [hf1]
      cases hp0 : parse_job_posting pg0 (urljoin d.curUrl s) with
      | error e =>
        simp only [hp0]
        refine ⟨[], ?_⟩
        simp [resolvesOf_append, resolvesOf_resolve, resolvesOf_itemFetch,
          resolvesOf_nil, fetch_no_resolves]
      | ok job0 =>
        simp only [hp0]
        by_cases htt0 : job0.title.truthy = true
        · simp only [htt0, if_true]
          by_cases hl0 : limitHit cfg (jobs ++ [job0]).length = true
          · simp only [hl0, if_true]
            refine ⟨[], ?_⟩
            simp [resolvesOf_append, resolvesOf_resolve,
              resolvesOf_itemFetch, resolvesOf_nil, fetch_no_resolves]
          · simp only [Bool.not_eq_true] at hl0
            simp only [hl0, Bool.false_eq_true, if_false]
            refine ⟨resolvesOf (processItems cfg world (fetch_with_selenium world d
              (urljoin d.curUrl s) cfg.maxRetries).2.1 (jobs ++ [job0]) rest).tr, ?_⟩
            simp [resolvesOf_append, resolvesOf_resolve,
              resolvesOf_itemFetch, resolvesOf_nil, fetch_no_resolves]
        · simp only [Bool.not_eq_true] at htt0
          simp only [htt0, Bool.false_eq_true, if_false]
          refine ⟨resolvesOf (processItems cfg world (fetch_with_selenium world d
            (urljoin d.curUrl s) cfg.maxRetries).2.1 jobs rest).tr, ?_⟩
          simp [resolvesOf_append, resolvesOf_resolve,
            resolvesOf_itemFetch, resolvesOf_nil, fetch_no_resolves]
  · have hres1 : resolveItem d s1 = (s1, []) := by
      simp [resolveItem, habs]
    simp only [processItems, hres1, hf, hp, htt, if_true]
    have hlen : (jobs ++ [job]).length = jobs.length + 1 := by simp
    rw [hlen]
    simp only [hl, Bool.false_eq_true, if_false]
    have hres2 : resolveItem (fetch_with_selenium world d s1 cfg.maxRetries).2.1 s2 =
        (urljoin (fetch_with_selenium world d s1 cfg.maxRetries).2.1.curUrl s2,
         [.resolve (fetch_with_selenium world d s1 cfg.maxRetries).2.1.curUrl s2]) := by
      simp [resolveItem, hrel2]
    simp only [processItems, hres2]
    cases hf2 : (fetch_with_selenium world (fetch_with_selenium world d s1
        cfg.maxRetries).2.1
        (urljoin (fetch_with_selenium world d s1 cfg.maxRetries).2.1.curUrl s2)
        cfg.maxRetries).1 with
    | none =>
      simp [hf2, resolvesOf_append, resolvesOf_resolve, resolvesOf_itemFetch,
        resolvesOf_nil, fetch_no_resolves, processItems]
    | some pg2 =>
      simp only [hf2]
      cases hp2 : parse_job_posting pg2
          (urljoin (fetch_with_selenium world d s1 cfg.maxRetries).2.1.curUrl s2) with
      | error e =>
        simp [hp2, resolvesOf_append, resolvesOf_resolve, resolvesOf_itemFetch,
          resolvesOf_nil, fetch_no_resolves]
      | ok job2 =>
        simp only [hp2]
        by_cases htt2 : job2.title.truthy = true
        · simp only [htt2, if_true]
          by_cases hl2 : limitHit cfg ((jobs ++ [job]) ++ [job2]).length = true
          · simp only [hl2, if_true]
            simp [resolvesOf_append, resolvesOf_resolve, resolvesOf_itemFetch,
              resolvesOf_nil, fetch_no_resolves]
          · simp only [Bool.not_eq_true] at hl2
            simp only [hl2, Bool.false_eq_true, if_false]
            simp [resolvesOf_append, resolvesOf_resolve, resolvesOf_itemFetch,
              resolvesOf_nil, fetch_no_resolves, processItems]
        · simp only [Bool.not_eq_true] at htt2
          simp only [htt2, Bool.false_eq_true, if_false]
          simp [resolvesOf_append, resolvesOf_resolve, resolvesOf_itemFetch,
            resolvesOf_nil, fetch_no_resolves, processItems]

/-- Closed instance of `c8_resolution_amended`: with the driver on the
listing page `https://h/L/`, a lone relative item resolves against it,
while a relative item following the successfully fetched absolute item
`https://h/a/1` resolves against `https://h/a/1`. -/
theorem c8_resolution_amended_witness :
    (∃ tl, resolvesOf ((processItems cfgNoLimit driftWorldTitled
      ⟨"a", "https://h/L/"⟩ [] (Json.str "x2" :: [])).tr) =
      ("https://h/L/", "x2") :: tl) ∧
    resolvesOf ((processItems cfgNoLimit driftWorldTitled ⟨"a", "https://h/L/"⟩ []
      [Json.str "https://h/a/1", Json.str "x2"]).tr) =
      [("https://h/a/1", "x2")] := by
  have h := c8_resolution_amended cfgNoLimit driftWorldTitled
    ⟨"a", "https://h/L/"⟩ [] "x2" "https://h/a/1" "x2" []
    titledJobPage ⟨.str "T", .null, .null, .null, "https://h/a/1"⟩
    rfl rfl rfl rfl rfl rfl rfl
  exact ⟨h.1, h.2⟩

/-! ## Claim C10 -/

theorem insertContrib_le_one (db : Db) (i : Nat) (j : JobRecord) :
    insertContrib db i j ≤ 1 := by
  unfold insertContrib
  by_cases h1 : jobValid j = true
  · simp only [h1, if_true]
    by_cases h2 : db.upsertOk i = true
    · simp only [h2, if_true]
      cases h3 : db.insertData i with
      | none => simp
      | some b => cases b <;> simp
    · simp [h2]
  · simp [h1]

theorem insertLoop_le (db : Db) :
    ∀ (jobs : List JobRecord) (i : Nat), insertLoop db i jobs ≤ jobs.length := by
  intro jobs
  induction jobs with
  | nil => intro i; simp [insertLoop]
  | cons j rest ih =>
    intro i
    simp only [insertLoop, List.length_cons]
    have h1 := insertContrib_le_one db i j
    have h2 := ih (i + 1)
    omega

/-- C10: `insert_jobs` returns an inserted count between 0 and the batch
size; a record without a truthy title, description, or company is skipped
and contributes nothing; and each record contributes 0 or 1
independently of the rest of the batch, so a skipped or failing record
never aborts the remaining records. -/
theorem c10_insert_jobs_bounds :
    (∀ (db : Db) (jobs : List JobRecord), insert_jobs db jobs ≤ jobs.length) ∧
    (∀ (db : Db) (i : Nat) (j : JobRecord) (rest : List JobRecord),
      jobValid j = false →
      insertLoop db i (j :: rest) = insertLoop db (i + 1) rest) ∧
    (∀ (db : Db) (i : Nat) (j : JobRecord) (rest : List JobRecord),
      insertLoop db (i + 1) rest ≤ insertLoop db i (j :: rest) ∧
      insertLoop db i (j :: rest) ≤ 1 + insertLoop db (i + 1) rest) := by
  refine ⟨?_, ?_, ?_⟩
  · intro db jobs
    unfold insert_jobs
    by_cases hc : db.connected = true
    · simp only [hc, if_true]
      exact insertLoop_le db jobs 0
    · simp [hc]
  · intro db i j rest hv
    simp [insertLoop, insertContrib, hv]
  · intro db i j rest
    have h1 := insertContrib_le_one db i j
    constructor
    · simp only [insertLoop]
      omega
    · simp only [insertLoop]
      omega

/-- Closed instance of `c10_insert_jobs_bounds`: a batch led by a record
with an empty title counts exactly as the batch without it, and the
total never exceeds the batch size. -/
theorem c10_insert_jobs_bounds_witness :
    insertLoop okDb 0 [untitledRecord, titledRecord] =
      insertLoop okDb 1 [titledRecord] ∧
    insert_jobs okDb [untitledRecord, titledRecord] ≤ 2 := by
  have h := c10_insert_jobs_bounds
  exact ⟨h.2.1 okDb 0 untitledRecord [titledRecord] rfl,
    by simpa using h.1 okDb [untitledRecord, titledRecord]⟩

end Scraper
